import Mathlib

/-!
Verification of the Minesweeper board engine (`src/minesweeper.py`).

The Python engine is shallowly embedded: the grid is a list of lists of
cells, every public operation is a pure function from a `Board` to a
`Board` together with the boolean the Python method returns, and the
recursive flood reveal is defined with explicit fuel (the termination
argument is proved as a theorem: any fuel larger than the number of
HIDDEN cells gives the same result).  `random.sample` inside
`_place_mines` is modelled by an explicit `sample` argument constrained
by `validSample`, which states exactly what `random.sample` guarantees:
the chosen positions are distinct, drawn from `available_positions`, and
`min(total_mines, len(available_positions))` many.
-/

namespace Minesweeper

/-- `CellState` enum of the source. -/
inductive CellState where
  | HIDDEN
  | REVEALED
  | FLAGGED
deriving DecidableEq, Repr

/-- `GameState` enum of the source. -/
inductive GameState where
  | PLAYING
  | WON
  | LOST
deriving DecidableEq, Repr

/-- `Cell.__init__`: a cell starts hidden, not a mine, with count 0. -/
structure Cell where
  is_mine : Bool
  state : CellState
  adjacent_mines : Nat
deriving DecidableEq, Repr

/-- The freshly constructed cell (`Cell()`). -/
def Cell.init : Cell := { is_mine := false, state := .HIDDEN, adjacent_mines := 0 }

/-- The mutable state of a `Minesweeper` object.  `flags_placed` is an
integer because Python decrements it without a lower bound;
`total_safe_cells` is an integer because `rows*cols - mines` may be
negative in Python. -/
structure Board where
  rows : Nat
  cols : Nat
  total_mines : Nat
  game_state : GameState
  first_move : Bool
  grid : List (List Cell)
  flags_placed : Int
  cells_revealed : Nat
  total_safe_cells : Int
deriving DecidableEq, Repr

/-- Read `grid[r][c]`, `none` when the index does not exist. -/
def getCell (g : List (List Cell)) (r c : Nat) : Option Cell :=
  (g.get? r).bind (fun row => row.get? c)

/-- Read `grid[r][c]` with a default cell for missing indices (the
source only ever indexes in bounds, so the default is never read on
well-formed boards). -/
def getCellD (g : List (List Cell)) (r c : Nat) : Cell :=
  (getCell g r c).getD Cell.init

/-- Write `grid[r][c] = cell` (no-op when the index does not exist). -/
def setCellG (g : List (List Cell)) (r c : Nat) (cell : Cell) : List (List Cell) :=
  g.set r ((g.getD r []).set c cell)

/-- The grid really has `rows` rows of `cols` cells each: true for every
board the engine constructs, and preserved by every operation. -/
def WF (b : Board) : Prop :=
  b.grid.length = b.rows ∧ ∀ row ∈ b.grid, row.length = b.cols

instance (b : Board) : Decidable (WF b) := by
  unfold WF; infer_instance

/-- `Minesweeper.__init__(rows, cols, mines)`. -/
def mkBoard (rows cols mines : Nat) : Board :=
  { rows := rows
    cols := cols
    total_mines := mines
    game_state := .PLAYING
    first_move := true
    grid := List.replicate rows (List.replicate cols Cell.init)
    flags_placed := 0
    cells_revealed := 0
    total_safe_cells := (rows : Int) * cols - mines }

/-- The offsets `(dr, dc)` enumerated by `_get_neighbors`, in the
source's `dr`-major order, with `(0, 0)` skipped. -/
def offsets : List (Int × Int) :=
  [(-1, -1), (-1, 0), (-1, 1), (0, -1), (0, 1), (1, -1), (1, 0), (1, 1)]

/-- `Minesweeper._get_neighbors`: the up-to-8 in-bounds neighbours of
`(row, col)`. -/
def get_neighbors (rows cols row col : Nat) : List (Nat × Nat) :=
  offsets.filterMap (fun d =>
    let nr : Int := (row : Int) + d.1
    let nc : Int := (col : Int) + d.2
    if 0 ≤ nr ∧ nr < (rows : Int) ∧ 0 ≤ nc ∧ nc < (cols : Int) then
      some (nr.toNat, nc.toNat)
    else
      none)

/-- Count the cells of the grid satisfying `P`. -/
def countCells (P : Cell → Bool) (g : List (List Cell)) : Nat :=
  (g.map (fun row => row.countP P)).sum

/-- Number of cells in the `FLAGGED` state. -/
def flaggedCount (b : Board) : Nat :=
  countCells (fun cell => decide (cell.state = .FLAGGED)) b.grid

/-- Number of cells in the `REVEALED` state. -/
def revealedCount (b : Board) : Nat :=
  countCells (fun cell => decide (cell.state = .REVEALED)) b.grid

/-- Number of cells in the `HIDDEN` state. -/
def hiddenCount (b : Board) : Nat :=
  countCells (fun cell => decide (cell.state = .HIDDEN)) b.grid

/-- Number of mine cells. -/
def mineCount (b : Board) : Nat :=
  countCells (fun cell => cell.is_mine) b.grid

/-- The source's `for row in range(rows): for col in range(cols):` double
loop, threading an accumulator through every index pair in row-major
order. -/
def forCells (rows cols : Nat) (f : α → Nat → Nat → α) (a : α) : α :=
  (List.range rows).foldl (fun acc r =>
    (List.range cols).foldl (fun acc' c => f acc' r c) acc) a

/-- The inner count of `_calculate_adjacent_mines`: how many neighbours
of `(r, c)` are mines. -/
def countMineNeighbors (rows cols : Nat) (g : List (List Cell)) (r c : Nat) : Nat :=
  (get_neighbors rows cols r c).countP (fun p => (getCellD g p.1 p.2).is_mine)

/-- Loop body of `_calculate_adjacent_mines` for one cell: a non-mine
cell's `adjacent_mines` is set to the number of its mine neighbours. -/
def adjBody (rows cols : Nat) (g : List (List Cell)) (r c : Nat) : List (List Cell) :=
  match getCell g r c with
  | some cell =>
    if cell.is_mine then g
    else setCellG g r c { cell with adjacent_mines := countMineNeighbors rows cols g r c }
  | none => g

/-- `Minesweeper._calculate_adjacent_mines`: every non-mine cell's
`adjacent_mines` is set to the number of its mine neighbours.  The loop
mutates only `adjacent_mines`, never `is_mine`, so reading neighbours
from the accumulating grid matches the source's in-place update. -/
def calculate_adjacent_mines (b : Board) : Board :=
  { b with grid := forCells b.rows b.cols (adjBody b.rows b.cols) b.grid }

/-- Loop body of `reveal_all_mines` for one cell. -/
def ramBody (g : List (List Cell)) (r c : Nat) : List (List Cell) :=
  match getCell g r c with
  | some cell =>
    if cell.is_mine then setCellG g r c { cell with state := .REVEALED } else g
  | none => g

/-- `Minesweeper.reveal_all_mines`: set every mine cell's state to
`REVEALED` (counters untouched). -/
def reveal_all_mines (b : Board) : Board :=
  { b with grid := forCells b.rows b.cols ramBody b.grid }

/-- `Minesweeper._are_all_safe_cells_revealed`: full board scan, true
iff every non-mine cell is `REVEALED`. -/
def are_all_safe_cells_revealed (b : Board) : Bool :=
  (List.range b.rows).all (fun r => (List.range b.cols).all (fun c =>
    let cell := getCellD b.grid r c
    cell.is_mine || decide (cell.state = .REVEALED)))

/-- The exclusion set of `_place_mines`: the clicked cell plus its
neighbours. -/
def exclude_positions (b : Board) (er ec : Nat) : List (Nat × Nat) :=
  (er, ec) :: get_neighbors b.rows b.cols er ec

/-- `available_positions` of `_place_mines`: all board positions outside
the exclusion set, in row-major order. -/
def available_positions (b : Board) (er ec : Nat) : List (Nat × Nat) :=
  (List.range b.rows).flatMap (fun r => (List.range b.cols).filterMap (fun c =>
    if (r, c) ∈ exclude_positions b er ec then none else some (r, c)))

/-- What `random.sample(available_positions, min(total_mines,
len(available_positions)))` guarantees about its result: distinct
positions, all drawn from `available_positions`, exactly
`min(total_mines, len(available_positions))` of them. -/
def validSample (b : Board) (er ec : Nat) (sample : List (Nat × Nat)) : Prop :=
  sample.Nodup ∧ (∀ p ∈ sample, p ∈ available_positions b er ec) ∧
    sample.length = min b.total_mines (available_positions b er ec).length

/-- The mine-marking step of `_place_mines` for one sampled position. -/
def mineBody (g : List (List Cell)) (p : Nat × Nat) : List (List Cell) :=
  match getCell g p.1 p.2 with
  | some cell => setCellG g p.1 p.2 { cell with is_mine := true }
  | none => g

/-- `Minesweeper._place_mines` with the randomly chosen positions
passed in as `sample` (see `validSample`): mark them as mines, then
recompute all adjacency counts. -/
def place_mines (b : Board) (sample : List (Nat × Nat)) : Board :=
  calculate_adjacent_mines { b with grid := sample.foldl mineBody b.grid }

/-- The `for` loop at the end of `_reveal_cell`: recurse (via `f`) into
every neighbour that is still `HIDDEN` at the moment it is visited. -/
def revealLoop (f : Board → Nat → Nat → Board × Bool) : Board → List (Nat × Nat) → Board
  | b, [] => b
  | b, p :: ps =>
    let b' := match getCell b.grid p.1 p.2 with
      | some ncell => if ncell.state = CellState.HIDDEN then (f b p.1 p.2).1 else b
      | none => b
    revealLoop f b' ps

/-- `Minesweeper._reveal_cell`, with explicit recursion fuel.  The
source's recursion always terminates (each recursive call happens after
a cell left the `HIDDEN` state), which is proved below as
`revealCellFuel_adequate`: any fuel above `hiddenCount` gives the same
result, so `revealCell` (fuel `hiddenCount b + 1`) is the function the
source computes. -/
def revealCellFuel : Nat → Board → Nat → Nat → Board × Bool
  | 0, b, _, _ => (b, true)
  | fuel + 1, b, row, col =>
    match getCell b.grid row col with
    | none => (b, true)
    | some cell =>
      if cell.state ≠ CellState.HIDDEN then (b, true)
      else
        let b1 := { b with grid := setCellG b.grid row col { cell with state := .REVEALED },
                           cells_revealed := b.cells_revealed + 1 }
        if cell.is_mine then ({ b1 with game_state := .LOST }, false)
        else if cell.adjacent_mines = 0 then
          (revealLoop (fun b' r' c' => revealCellFuel fuel b' r' c') b1
            (get_neighbors b.rows b.cols row col), true)
        else (b1, true)

/-- `Minesweeper._reveal_cell`: the fuel version at an always-adequate
fuel. -/
def revealCell (b : Board) (row col : Nat) : Board × Bool :=
  revealCellFuel (hiddenCount b + 1) b row col

/-- `Minesweeper.reveal`. -/
def reveal (b : Board) (row col : Nat) (sample : List (Nat × Nat)) : Board × Bool :=
  if b.game_state ≠ .PLAYING then (b, false)
  else if ¬(row < b.rows ∧ col < b.cols) then (b, false)
  else
    let cell := getCellD b.grid row col
    if cell.state = .FLAGGED then (b, false)
    else if cell.state = .REVEALED then (b, false)
    else
      let b1 := if b.first_move then { place_mines b sample with first_move := false } else b
      let res := revealCell b1 row col
      if res.2 && are_all_safe_cells_revealed res.1 then
        (reveal_all_mines { res.1 with game_state := .WON }, res.2)
      else res

/-- `Minesweeper.flag`. -/
def flag (b : Board) (row col : Nat) : Board × Bool :=
  if b.game_state ≠ .PLAYING then (b, false)
  else if ¬(row < b.rows ∧ col < b.cols) then (b, false)
  else
    let cell := getCellD b.grid row col
    if cell.state = .REVEALED then (b, false)
    else if cell.state = .FLAGGED then
      ({ b with grid := setCellG b.grid row col { cell with state := .HIDDEN },
                flags_placed := b.flags_placed - 1 }, true)
    else
      ({ b with grid := setCellG b.grid row col { cell with state := .FLAGGED },
                flags_placed := b.flags_placed + 1 }, true)

/-- The neighbour loop of `chord_reveal`: reveal each neighbour that is
`HIDDEN` when visited, stopping at the first mine hit. -/
def chordLoop : Board → List (Nat × Nat) → Board × Bool
  | b, [] => (b, true)
  | b, p :: ps =>
    if (getCellD b.grid p.1 p.2).state = CellState.HIDDEN then
      let res := revealCell b p.1 p.2
      if res.2 then chordLoop res.1 ps else (res.1, false)
    else chordLoop b ps

/-- `Minesweeper.chord_reveal`. -/
def chord_reveal (b : Board) (row col : Nat) : Board × Bool :=
  if b.game_state ≠ .PLAYING then (b, false)
  else if ¬(row < b.rows ∧ col < b.cols) then (b, false)
  else
    let cell := getCellD b.grid row col
    if cell.state ≠ .REVEALED then (b, false)
    else if cell.is_mine then (b, false)
    else
      let ns := get_neighbors b.rows b.cols row col
      let flagged_count := ns.countP
        (fun p => decide ((getCellD b.grid p.1 p.2).state = .FLAGGED))
      if flagged_count ≠ cell.adjacent_mines then (b, false)
      else
        let res := chordLoop b ns
        if res.2 && are_all_safe_cells_revealed res.1 then
          (reveal_all_mines { res.1 with game_state := .WON }, res.2)
        else res

/-- Loop body of `reset` for one cell: back to the freshly constructed
cell. -/
def resetBody (g : List (List Cell)) (r c : Nat) : List (List Cell) :=
  match getCell g r c with
  | some _ => setCellG g r c Cell.init
  | none => g

/-- `Minesweeper.reset`. -/
def reset (b : Board) : Board :=
  { b with game_state := .PLAYING, first_move := true, flags_placed := 0, cells_revealed := 0,
           grid := forCells b.rows b.cols resetBody b.grid }

/-- `Minesweeper.get_remaining_mines`. -/
def get_remaining_mines (b : Board) : Int :=
  (b.total_mines : Int) - b.flags_placed

/-- `Minesweeper.is_game_over`. -/
def is_game_over (b : Board) : Bool :=
  decide (b.game_state = .WON) || decide (b.game_state = .LOST)

/-- Python's `str.strip()`: drop whitespace from both ends of the
character list. -/
def stripChars (s : List Char) : List Char :=
  ((s.dropWhile Char.isWhitespace).reverse.dropWhile Char.isWhitespace).reverse

/-- Python's `str.split('\n')`: split the character list at every
newline (`"".split('\n') == [""]`). -/
def splitNewlines : List Char → List (List Char)
  | [] => [[]]
  | ch :: rest =>
    let r := splitNewlines rest
    if ch = '\n' then [] :: r
    else
      match r with
      | [] => [[ch]]
      | l :: ls => (ch :: l) :: ls

/-- `Minesweeper.setup_board_from_pattern`.  The Python string plumbing
(`pattern.strip().split('\n')`, `line.strip()`) is embedded through
`stripChars`/`splitNewlines` on the string's character list. -/
def setup_board_from_pattern (b : Board) (pattern : String) : Board :=
  let lines := ((splitNewlines (stripChars pattern.toList)).map stripChars).filter
    (fun l => !l.isEmpty)
  if lines.isEmpty then b
  else
    let rows := lines.length
    let cols := (lines.map List.length).foldl Nat.max 0
    let grid := lines.map (fun line => (List.range cols).map (fun c =>
      { Cell.init with is_mine := decide (line.getD c ' ' = '*') }))
    let mine_count := (lines.map (fun line => line.countP (fun ch => ch == '*'))).sum
    calculate_adjacent_mines
      { rows := rows
        cols := cols
        total_mines := mine_count
        game_state := .PLAYING
        first_move := false
        grid := grid
        flags_placed := 0
        cells_revealed := 0
        total_safe_cells := (rows : Int) * cols - mine_count }


/-- All board positions in row-major order. -/
def allPositions (rows cols : Nat) : List (Nat × Nat) :=
  (List.range rows).flatMap (fun r => (List.range cols).map (fun c => (r, c)))


/-- Two grids with the same row count and row lengths. -/
structure sameShape (g g' : List (List Cell)) : Prop where
  len : g'.length = g.length
  rowlen : ∀ i : Nat, ((g'[i]?).getD []).length = ((g[i]?).getD []).length

/-- How one cell can change across a flood reveal: mine flag and
adjacency count are untouched, and the only state transition is
`HIDDEN` to `REVEALED`. -/
def CellEvolves (x y : Cell) : Prop :=
  y.is_mine = x.is_mine ∧ y.adjacent_mines = x.adjacent_mines ∧
    (y.state = x.state ∨ (x.state = CellState.HIDDEN ∧ y.state = CellState.REVEALED))

def OptEvolves : Option Cell → Option Cell → Prop
  | none, none => True
  | some x, some y => CellEvolves x y
  | _, _ => False

/-- Everything a single `_reveal_cell` call (with its cascade) preserves
or changes monotonically. -/
structure StepR (b b' : Board) : Prop where
  rows_eq : b'.rows = b.rows
  cols_eq : b'.cols = b.cols
  mines_eq : b'.total_mines = b.total_mines
  first_eq : b'.first_move = b.first_move
  flags_eq : b'.flags_placed = b.flags_placed
  safe_eq : b'.total_safe_cells = b.total_safe_cells
  shape : sameShape b.grid b'.grid
  evolves : ∀ r c : Nat, OptEvolves (getCell b.grid r c) (getCell b'.grid r c)
  counters : b'.cells_revealed + revealedCount b = b.cells_revealed + revealedCount b'
  flagcnt : flaggedCount b' = flaggedCount b
  minecnt : mineCount b' = mineCount b
  hidden_le : hiddenCount b' ≤ hiddenCount b
  gs : b'.game_state = b.game_state ∨ b'.game_state = GameState.LOST
  mine_lost : ∀ r c x y, getCell b.grid r c = some x → getCell b'.grid r c = some y →
    y.is_mine = true → x.state ≠ CellState.REVEALED → y.state = CellState.REVEALED →
    b'.game_state = GameState.LOST

/-- Every non-mine cell's stored `adjacent_mines` equals the true count
of mine neighbours.  Holds in every state the engine can reach. -/
def AdjConsistent (b : Board) : Prop :=
  ∀ r c cell, getCell b.grid r c = some cell → cell.is_mine = false →
    cell.adjacent_mines = countMineNeighbors b.rows b.cols b.grid r c

/-- Bounded, decidable form of `AdjConsistent`, for concrete boards. -/
def AdjConsistentOn (b : Board) : Prop :=
  ∀ r, r < b.rows → ∀ c, c < b.cols → (getCellD b.grid r c).is_mine = false →
    (getCellD b.grid r c).adjacent_mines = countMineNeighbors b.rows b.cols b.grid r c

instance (b : Board) : Decidable (AdjConsistentOn b) := by
  unfold AdjConsistentOn; infer_instance

/-- The per-cell effect of `_calculate_adjacent_mines`, reading mine
locations from the grid `g`. -/
def adjAct (rows cols : Nat) (g : List (List Cell)) (r c : Nat) (cell : Cell) : Cell :=
  if cell.is_mine then cell
  else { cell with adjacent_mines := countMineNeighbors rows cols g r c }


/-- No mine cell is in the `REVEALED` state (true while the game is
being played). -/
def NoRevealedMines (b : Board) : Prop :=
  ∀ r c x, getCell b.grid r c = some x → x.is_mine = true → x.state ≠ CellState.REVEALED

/-- The two display counters agree with a full scan of the grid. -/
def CountersMatch (b : Board) : Prop :=
  b.flags_placed = (flaggedCount b : Int) ∧ b.cells_revealed = revealedCount b

/-- While `first_move` is still set, no mine has been placed and no cell
has been revealed. -/
def FreshMove (b : Board) : Prop :=
  b.first_move = true → ∀ r c x, getCell b.grid r c = some x →
    x.is_mine = false ∧ x.state ≠ CellState.REVEALED

/-- The inductive invariant of the engine, preserved by every public
operation. -/
def Inv (b : Board) : Prop :=
  WF b ∧ AdjConsistent b ∧
    (b.game_state ≠ GameState.WON → CountersMatch b) ∧
    (b.game_state = GameState.PLAYING → NoRevealedMines b) ∧
    FreshMove b

/-- The boards obtainable through the public interface: construction,
pattern load, reveal (with a valid random sample when mines get
placed), flag, chord reveal, and reset. -/
inductive Reachable : Board → Prop where
  | construct (rows cols mines : Nat) : Reachable (mkBoard rows cols mines)
  | pattern (b : Board) (pat : String) : Reachable b →
      Reachable (setup_board_from_pattern b pat)
  | reveal_op (b : Board) (row col : Nat) (sample : List (Nat × Nat)) : Reachable b →
      (b.first_move = true → validSample b row col sample) →
      Reachable (reveal b row col sample).1
  | flag_op (b : Board) (row col : Nat) : Reachable b → Reachable (flag b row col).1
  | chord_op (b : Board) (row col : Nat) : Reachable b → Reachable (chord_reveal b row col).1
  | reset_op (b : Board) : Reachable b → Reachable (reset b)

/-- The 2-by-2 pattern board from the specification's test properties. -/
def patternBoard : Board := setup_board_from_pattern (mkBoard 9 9 10) "*.\n.."

/-- `patternBoard` after flagging the mine and revealing the three safe
cells: a won game whose counters no longer match a board scan. -/
def wonBoard : Board :=
  (reveal (reveal (reveal (flag patternBoard 0 0).1 0 1 []).1 1 0 []).1 1 1 []).1

/-- A terminal board used to exercise the game-over guards. -/
def finishedBoard : Board := { mkBoard 2 2 1 with game_state := GameState.WON }

/-- `patternBoard` after revealing cell (1,1) and flagging the mine:
the stage for a chord reveal on the revealed "1" cell. -/
def chordBoard : Board := (flag (reveal patternBoard 1 1 []).1 0 0).1


/-! ### List-level helper lemmas -/

theorem list_set_getElem_self {α : Type} : ∀ (l : List α) (i : Nat), i < l.length →
    ∀ x, l[i]? = some x → l.set i x = l
  | [], i, h, _, _ => absurd h (by simp)
  | a :: l, 0, _, x, hx => by simp at hx; simp [List.set, hx]
  | a :: l, i + 1, h, x, hx => by
    simp only [List.set]
    have := list_set_getElem_self l i (by simpa using h) x (by simpa using hx)
    rw [this]

theorem list_countP_set' {α : Type} (P : α → Bool) :
    ∀ (l : List α) (i : Nat) (x y : α), l[i]? = some x →
      (l.set i y).countP P + (if P x then 1 else 0) =
        l.countP P + (if P y then 1 else 0)
  | [], i, x, y, hx => by simp at hx
  | a :: l, 0, x, y, hx => by
    simp at hx
    subst hx
    simp [List.set, List.countP_cons]
    omega
  | a :: l, i + 1, x, y, hx => by
    simp only [List.set, List.countP_cons]
    have := list_countP_set' P l i x y (by simpa using hx)
    omega

theorem list_countP_congr' {α : Type} (P : α → Bool) :
    ∀ (l l' : List α), l'.length = l.length →
      (∀ (i : Nat) (x y : α), l[i]? = some x → l'[i]? = some y → P y = P x) →
      l'.countP P = l.countP P
  | [], [], _, _ => rfl
  | [], _ :: _, h, _ => by simp at h
  | _ :: _, [], h, _ => by simp at h
  | a :: l, b :: l', h, hp => by
    simp only [List.countP_cons]
    have h0 : P b = P a := hp 0 a b (by simp) (by simp)
    have h1 := list_countP_congr' P l l' (by simpa using h)
      (fun i x y hx hy => hp (i + 1) x y (by simpa using hx) (by simpa using hy))
    rw [h0, h1]

/-! ### Grid access lemmas -/

theorem getCell_some_iff {g : List (List Cell)} {r c : Nat} {x : Cell} :
    getCell g r c = some x ↔ ∃ row, g[r]? = some row ∧ row[c]? = some x := by
  unfold getCell
  cases h : g[r]? with
  | none => simp [List.get?_eq_getElem?, h]
  | some row => simp [List.get?_eq_getElem?, h]

theorem getCell_setCellG_self {g : List (List Cell)} {r c : Nat} {x : Cell} (y : Cell)
    (h : getCell g r c = some x) :
    getCell (setCellG g r c y) r c = some y := by
  rcases getCell_some_iff.1 h with ⟨row, hr, hc⟩
  have hrlen : r < g.length := by
    by_contra hh
    simp [List.getElem?_eq_none (by omega : g.length ≤ r)] at hr
  have hclen : c < row.length := by
    by_contra hh
    simp [List.getElem?_eq_none (by omega : row.length ≤ c)] at hc
  apply getCell_some_iff.2
  refine ⟨row.set c y, ?_, ?_⟩
  · unfold setCellG
    have hgd : g.getD r [] = row := by simp [List.getD, List.get?_eq_getElem?, hr]
    rw [hgd]
    exact List.getElem?_set_self hrlen
  · exact List.getElem?_set_self hclen

theorem getCell_setCellG_ne {g : List (List Cell)} {r c r' c' : Nat} (y : Cell)
    (h : ¬(r' = r ∧ c' = c)) :
    getCell (setCellG g r c y) r' c' = getCell g r' c' := by
  unfold setCellG getCell
  rcases eq_or_ne r' r with hr | hr
  · subst hr
    have hc : c' ≠ c := fun hcc => h ⟨rfl, hcc⟩
    by_cases hlt : r' < g.length
    · have hrow : g[r']? = some g[r'] := List.getElem?_eq_getElem hlt
      have hgd : g.getD r' [] = g[r'] := by simp [List.getD, List.get?_eq_getElem?, hrow]
      rw [hgd]
      simp only [List.get?_eq_getElem?, List.getElem?_set_self hlt, hrow,
        Option.some_bind]
      exact List.getElem?_set_ne (Ne.symm hc)
    · rw [List.set_eq_of_length_le (by omega)]
  · simp [List.get?_eq_getElem?, List.getElem?_set_ne (Ne.symm hr)]

theorem setCellG_same {g : List (List Cell)} {r c : Nat} {x : Cell}
    (h : getCell g r c = some x) : setCellG g r c x = g := by
  rcases getCell_some_iff.1 h with ⟨row, hr, hc⟩
  have hrlen : r < g.length := by
    by_contra hh
    simp [List.getElem?_eq_none (by omega : g.length ≤ r)] at hr
  have hclen : c < row.length := by
    by_contra hh
    simp [List.getElem?_eq_none (by omega : row.length ≤ c)] at hc
  unfold setCellG
  have hgd : g.getD r [] = row := by simp [List.getD, List.get?_eq_getElem?, hr]
  rw [hgd, list_set_getElem_self row c hclen x hc, list_set_getElem_self g r hrlen row hr]

theorem length_setCellG (g : List (List Cell)) (r c : Nat) (y : Cell) :
    (setCellG g r c y).length = g.length := by
  unfold setCellG; simp

theorem rowlen_setCellG (g : List (List Cell)) (r c : Nat) (y : Cell) (i : Nat) :
    (((setCellG g r c y)[i]?).getD []).length = ((g[i]?).getD []).length := by
  unfold setCellG
  rcases eq_or_ne i r with hi | hi
  · subst hi
    by_cases hlen : i < g.length
    · have hrow : g[i]? = some g[i] := List.getElem?_eq_getElem hlen
      have hgd : g.getD i [] = g[i] := by simp [List.getD, List.get?_eq_getElem?, hrow]
      rw [hgd]
      simp [List.getElem?_set_self hlen, hrow]
    · rw [List.set_eq_of_length_le (by omega)]
  · rw [List.getElem?_set_ne (Ne.symm hi)]

theorem list_sum_set' : ∀ (l : List Nat) (i : Nat) (x y : Nat), l[i]? = some x →
    (l.set i y).sum + x = l.sum + y
  | [], i, x, y, hx => by simp at hx
  | a :: l, 0, x, y, hx => by
    simp at hx
    subst hx
    simp [List.set]
    omega
  | a :: l, i + 1, x, y, hx => by
    simp only [List.set, List.sum_cons]
    have := list_sum_set' l i x y (by simpa using hx)
    omega

theorem list_le_sum : ∀ (l : List Nat) (i : Nat) (x : Nat), l[i]? = some x → x ≤ l.sum
  | [], i, x, hx => by simp at hx
  | a :: l, 0, x, hx => by simp at hx; subst hx; simp
  | a :: l, i + 1, x, hx => by
    simp only [List.sum_cons]
    have := list_le_sum l i x (by simpa using hx)
    omega

theorem countCells_setCellG (P : Cell → Bool) {g : List (List Cell)} {r c : Nat} {x : Cell}
    (y : Cell) (h : getCell g r c = some x) :
    countCells P (setCellG g r c y) + (if P x then 1 else 0) =
      countCells P g + (if P y then 1 else 0) := by
  rcases getCell_some_iff.1 h with ⟨row, hr, hc⟩
  unfold countCells setCellG
  have hgd : g.getD r [] = row := by simp [List.getD, List.get?_eq_getElem?, hr]
  rw [hgd, List.map_set]
  have h1 := list_sum_set' (g.map (fun row => row.countP P)) r (row.countP P)
    ((row.set c y).countP P) (by simp [hr])
  have h2 := list_countP_set' P row c x y hc
  omega

theorem countCells_pos (P : Cell → Bool) {g : List (List Cell)} {r c : Nat} {x : Cell}
    (h : getCell g r c = some x) (hx : P x) : 1 ≤ countCells P g := by
  rcases getCell_some_iff.1 h with ⟨row, hr, hc⟩
  unfold countCells
  have h1 : 1 ≤ row.countP P := by
    have hmem : x ∈ row := by
      have hlt : c < row.length := by
        by_contra hh
        simp [List.getElem?_eq_none (by omega : row.length ≤ c)] at hc
      have : row[c] = x := by
        have := List.getElem?_eq_getElem hlt
        rw [this] at hc
        exact Option.some.inj hc
      exact this ▸ List.getElem_mem hlt
    have := List.countP_pos_iff.2 ⟨x, hmem, hx⟩
    omega
  calc 1 ≤ row.countP P := h1
    _ ≤ (g.map (fun row => row.countP P)).sum :=
        list_le_sum _ r (row.countP P) (by simp [hr])

theorem getCellD_eq {g : List (List Cell)} {r c : Nat} {x : Cell}
    (h : getCell g r c = some x) : getCellD g r c = x := by
  simp [getCellD, h]

/-- On a well-formed board, in-bounds positions hold a cell. -/
theorem WF.getCell_isSome {b : Board} (hwf : WF b) {r c : Nat}
    (hr : r < b.rows) (hc : c < b.cols) : ∃ cell, getCell b.grid r c = some cell := by
  obtain ⟨hlen, hrows⟩ := hwf
  have hrl : r < b.grid.length := by omega
  have hrow : b.grid[r]? = some b.grid[r] := List.getElem?_eq_getElem hrl
  have hcl : c < (b.grid[r]).length := by
    rw [hrows _ (List.getElem_mem hrl)]
    exact hc
  exact ⟨b.grid[r][c], getCell_some_iff.2
    ⟨b.grid[r], hrow, List.getElem?_eq_getElem hcl⟩⟩

/-- On a well-formed board, only in-bounds positions hold a cell. -/
theorem WF.getCell_bounds {b : Board} (hwf : WF b) {r c : Nat} {x : Cell}
    (h : getCell b.grid r c = some x) : r < b.rows ∧ c < b.cols := by
  obtain ⟨hlen, hrows⟩ := hwf
  rcases getCell_some_iff.1 h with ⟨row, hr, hc⟩
  have hrl : r < b.grid.length := by
    by_contra hh
    simp [List.getElem?_eq_none (by omega : b.grid.length ≤ r)] at hr
  have hcl : c < row.length := by
    by_contra hh
    simp [List.getElem?_eq_none (by omega : row.length ≤ c)] at hc
  constructor
  · omega
  · have hrmem : row ∈ b.grid := by
      have : b.grid[r] = row := by
        have := List.getElem?_eq_getElem hrl
        rw [this] at hr
        exact Option.some.inj hr
      exact this ▸ List.getElem_mem hrl
    rw [hrows _ hrmem] at hcl
    exact hcl

/-! ### Neighbour enumeration lemmas -/

theorem mem_get_neighbors {rows cols r c : Nat} {p : Nat × Nat}
    (h : p ∈ get_neighbors rows cols r c) : p.1 < rows ∧ p.2 < cols := by
  unfold get_neighbors at h
  rcases List.mem_filterMap.1 h with ⟨d, _, hd⟩
  simp only at hd
  split at hd
  · rename_i hcond
    obtain ⟨h1, h2, h3, h4⟩ := hcond
    cases hd
    constructor <;> simp <;> omega
  · cases hd

theorem get_neighbors_ne_self {rows cols r c : Nat} {p : Nat × Nat}
    (h : p ∈ get_neighbors rows cols r c) : p ≠ (r, c) := by
  unfold get_neighbors at h
  rcases List.mem_filterMap.1 h with ⟨d, hdmem, hd⟩
  simp only at hd
  split at hd
  · rename_i hcond
    obtain ⟨h1, h2, h3, h4⟩ := hcond
    cases hd
    intro hne
    have hr' : ((r : Int) + d.1).toNat = r := congrArg Prod.fst hne
    have hc' : ((c : Int) + d.2).toNat = c := congrArg Prod.snd hne
    have hd1 : d.1 = 0 := by omega
    have hd2 : d.2 = 0 := by omega
    have hd00 : d = ((0 : Int), (0 : Int)) := by
      rcases d with ⟨d1, d2⟩
      simp only at hd1 hd2
      rw [hd1, hd2]
    rw [hd00] at hdmem
    exact absurd hdmem (by decide)
  · cases hd

/-! ### Index iteration: `forCells` as a fold over all positions -/

theorem mem_allPositions {rows cols : Nat} {p : Nat × Nat} :
    p ∈ allPositions rows cols ↔ p.1 < rows ∧ p.2 < cols := by
  unfold allPositions
  rcases p with ⟨r, c⟩
  simp [List.mem_flatMap, List.mem_map, List.mem_range]

theorem nodup_allPositions (rows cols : Nat) : (allPositions rows cols).Nodup := by
  unfold allPositions
  induction rows with
  | zero => simp
  | succ n ih =>
    rw [List.range_succ, List.flatMap_append]
    apply List.Nodup.append ih
    · simp only [List.flatMap_cons, List.flatMap_nil, List.append_nil]
      exact List.Nodup.map (fun a b h => (Prod.mk.injEq n a n b ▸ h).2)
        (List.nodup_range _)
    · intro p hp hp'
      simp only [List.flatMap_cons, List.flatMap_nil, List.append_nil] at hp'
      rcases List.mem_flatMap.1 hp with ⟨r, hr, hpr⟩
      rcases List.mem_map.1 hpr with ⟨c, _, rfl⟩
      rcases List.mem_map.1 hp' with ⟨c', _, hc'⟩
      have : r = n := (Prod.mk.injEq _ _ _ _ ▸ hc'.symm).1
      rw [List.mem_range] at hr
      omega

theorem forCells_eq_foldl (rows cols : Nat) (f : α → Nat → Nat → α) (a : α) :
    forCells rows cols f a =
      (allPositions rows cols).foldl (fun acc p => f acc p.1 p.2) a := by
  unfold forCells allPositions
  generalize List.range rows = l
  induction l generalizing a with
  | nil => rfl
  | cons r l ih =>
    simp only [List.foldl_cons, List.flatMap_cons, List.foldl_append]
    rw [List.foldl_map]
    exact ih _

/-! ### Characterizing position-local grid folds -/

section FoldChar

variable (body : List (List Cell) → Nat → Nat → List (List Cell))
variable (act : Nat → Nat → Cell → Cell)

/-- Folding a body that only rewrites the visited position, over a list
of distinct positions: each position's cell is transformed by `act`
exactly once, the rest of the grid is untouched. -/
theorem foldl_body_char
    (hlocal : ∀ g r c r' c', ¬(r' = r ∧ c' = c) →
      getCell (body g r c) r' c' = getCell g r' c')
    (hact : ∀ g r c, getCell (body g r c) r c = (getCell g r c).map (act r c)) :
    ∀ (ps : List (Nat × Nat)) (g : List (List Cell)), ps.Nodup →
      ∀ r c, getCell (ps.foldl (fun g' p => body g' p.1 p.2) g) r c =
        if (r, c) ∈ ps then (getCell g r c).map (act r c) else getCell g r c := by
  intro ps
  induction ps with
  | nil => simp
  | cons p ps ih =>
    intro g hnd r c
    obtain ⟨hpnotmem, hndtail⟩ := List.nodup_cons.1 hnd
    simp only [List.foldl_cons]
    rw [ih _ hndtail]
    by_cases hmem : (r, c) ∈ ps
    · have hne : ¬((r, c) = p) := fun hh => hpnotmem (hh ▸ hmem)
      rw [hlocal g p.1 p.2 r c (fun hh => hne (by rw [hh.1, hh.2]))]
      have hcons : (r, c) ∈ p :: ps := List.mem_cons_of_mem _ hmem
      simp only [hmem, if_true, hcons]
    · by_cases hp : (r, c) = p
      · have h1 : r = p.1 := congrArg Prod.fst hp
        have h2 : c = p.2 := congrArg Prod.snd hp
        subst h1
        subst h2
        simp only [hmem, if_false]
        rw [hact]
        simp [List.mem_cons]
      · rw [hlocal g p.1 p.2 r c (fun hh => hp (by rw [hh.1, hh.2]))]
        have hncons : (r, c) ∉ p :: ps := by
          intro hh
          rcases List.mem_cons.1 hh with hh | hh
          · exact hp hh
          · exact hmem hh
        simp only [hmem, if_false, hncons]

end FoldChar

/-! ### Shape preservation -/

theorem sameShape_refl (g : List (List Cell)) : sameShape g g := ⟨rfl, fun _ => rfl⟩

theorem sameShape_trans {g1 g2 g3 : List (List Cell)}
    (h1 : sameShape g1 g2) (h2 : sameShape g2 g3) : sameShape g1 g3 :=
  ⟨h2.len.trans h1.len, fun i => (h2.rowlen i).trans (h1.rowlen i)⟩

theorem sameShape_setCellG (g : List (List Cell)) (r c : Nat) (y : Cell) :
    sameShape g (setCellG g r c y) :=
  ⟨length_setCellG g r c y, fun i => rowlen_setCellG g r c y i⟩

theorem sameShape_foldl {β : Type} (body : List (List Cell) → β → List (List Cell))
    (hbody : ∀ g p, sameShape g (body g p)) :
    ∀ (ps : List β) (g : List (List Cell)), sameShape g (ps.foldl body g) := by
  intro ps
  induction ps with
  | nil => exact fun g => sameShape_refl g
  | cons p ps ih => exact fun g => sameShape_trans (hbody g p) (ih (body g p))

theorem sameShape_forCells (rows cols : Nat) (f : List (List Cell) → Nat → Nat → List (List Cell))
    (hbody : ∀ g r c, sameShape g (f g r c)) (g : List (List Cell)) :
    sameShape g (forCells rows cols f g) := by
  rw [forCells_eq_foldl]
  exact sameShape_foldl (fun g (p : Nat × Nat) => f g p.1 p.2)
    (fun g (p : Nat × Nat) => hbody g p.1 p.2) _ g

/-- `WF` through indices rather than membership. -/
theorem WF_iff {b : Board} : WF b ↔ b.grid.length = b.rows ∧
    ∀ i, i < b.rows → ((b.grid[i]?).getD []).length = b.cols := by
  unfold WF
  constructor
  · rintro ⟨hlen, hmem⟩
    refine ⟨hlen, fun i hi => ?_⟩
    have hlt : i < b.grid.length := by omega
    rw [List.getElem?_eq_getElem hlt]
    exact hmem _ (List.getElem_mem hlt)
  · rintro ⟨hlen, hidx⟩
    refine ⟨hlen, fun row hrow => ?_⟩
    rcases List.mem_iff_getElem.1 hrow with ⟨i, hi, rfl⟩
    have := hidx i (by omega)
    rwa [List.getElem?_eq_getElem hi] at this

theorem WF_of_sameShape {b b' : Board} (hwf : WF b) (hs : sameShape b.grid b'.grid)
    (hr : b'.rows = b.rows) (hc : b'.cols = b.cols) : WF b' := by
  rw [WF_iff] at hwf ⊢
  refine ⟨hs.len.trans ?_, fun i hi => (hs.rowlen i).trans ?_⟩
  · rw [hwf.1, hr]
  · rw [hwf.2 i (by omega), hc]

/-! ### Characterizations of the index loops -/

theorem ramBody_local (g : List (List Cell)) (r c r' c' : Nat) (h : ¬(r' = r ∧ c' = c)) :
    getCell (ramBody g r c) r' c' = getCell g r' c' := by
  unfold ramBody
  cases hcell : getCell g r c with
  | none => rfl
  | some cell =>
    by_cases hm : cell.is_mine <;> simp [hm, getCell_setCellG_ne _ h]

theorem ramBody_act (g : List (List Cell)) (r c : Nat) :
    getCell (ramBody g r c) r c = (getCell g r c).map
      (fun cell => if cell.is_mine then { cell with state := CellState.REVEALED } else cell) := by
  unfold ramBody
  cases hcell : getCell g r c with
  | none => simp [hcell]
  | some cell =>
    by_cases hm : cell.is_mine <;>
      simp [hm, getCell_setCellG_self _ hcell, hcell]

theorem ramBody_shape (g : List (List Cell)) (r c : Nat) : sameShape g (ramBody g r c) := by
  unfold ramBody
  cases getCell g r c with
  | none => exact sameShape_refl g
  | some cell =>
    by_cases hm : cell.is_mine <;> simp [hm, sameShape_setCellG, sameShape_refl]

theorem reveal_all_mines_getCell (b : Board) (r c : Nat) :
    getCell (reveal_all_mines b).grid r c =
      if r < b.rows ∧ c < b.cols then
        (getCell b.grid r c).map
          (fun cell => if cell.is_mine then { cell with state := CellState.REVEALED } else cell)
      else getCell b.grid r c := by
  show getCell (forCells b.rows b.cols ramBody b.grid) r c = _
  rw [forCells_eq_foldl]
  rw [foldl_body_char ramBody _ (fun g r c r' c' h => ramBody_local g r c r' c' h)
    (fun g r c => ramBody_act g r c) _ _ (nodup_allPositions _ _) r c]
  simp only [mem_allPositions]

theorem reveal_all_mines_shape (b : Board) : sameShape b.grid (reveal_all_mines b).grid := by
  show sameShape b.grid (forCells b.rows b.cols ramBody b.grid)
  exact sameShape_forCells _ _ _ ramBody_shape _

theorem resetBody_local (g : List (List Cell)) (r c r' c' : Nat) (h : ¬(r' = r ∧ c' = c)) :
    getCell (resetBody g r c) r' c' = getCell g r' c' := by
  unfold resetBody
  cases hcell : getCell g r c with
  | none => rfl
  | some cell => simp [getCell_setCellG_ne _ h]

theorem resetBody_act (g : List (List Cell)) (r c : Nat) :
    getCell (resetBody g r c) r c = (getCell g r c).map (fun _ => Cell.init) := by
  unfold resetBody
  cases hcell : getCell g r c with
  | none => simp [hcell]
  | some cell => simp [getCell_setCellG_self _ hcell, hcell]

theorem resetBody_shape (g : List (List Cell)) (r c : Nat) : sameShape g (resetBody g r c) := by
  unfold resetBody
  cases getCell g r c with
  | none => exact sameShape_refl g
  | some cell => exact sameShape_setCellG g r c Cell.init

theorem reset_getCell (b : Board) (r c : Nat) :
    getCell (reset b).grid r c =
      if r < b.rows ∧ c < b.cols then (getCell b.grid r c).map (fun _ => Cell.init)
      else getCell b.grid r c := by
  show getCell (forCells b.rows b.cols resetBody b.grid) r c = _
  rw [forCells_eq_foldl]
  rw [foldl_body_char resetBody _ (fun g r c r' c' h => resetBody_local g r c r' c' h)
    (fun g r c => resetBody_act g r c) _ _ (nodup_allPositions _ _) r c]
  simp only [mem_allPositions]

theorem reset_shape (b : Board) : sameShape b.grid (reset b).grid := by
  show sameShape b.grid (forCells b.rows b.cols resetBody b.grid)
  exact sameShape_forCells _ _ _ resetBody_shape _

theorem mineBody_local (g : List (List Cell)) (p : Nat × Nat) (r' c' : Nat)
    (h : ¬(r' = p.1 ∧ c' = p.2)) : getCell (mineBody g p) r' c' = getCell g r' c' := by
  unfold mineBody
  cases hcell : getCell g p.1 p.2 with
  | none => rfl
  | some cell => simp [getCell_setCellG_ne _ h]

theorem mineBody_act (g : List (List Cell)) (p : Nat × Nat) :
    getCell (mineBody g p) p.1 p.2 =
      (getCell g p.1 p.2).map (fun cell => { cell with is_mine := true }) := by
  unfold mineBody
  cases hcell : getCell g p.1 p.2 with
  | none => simp [hcell]
  | some cell => simp [getCell_setCellG_self _ hcell, hcell]

theorem mineBody_shape (g : List (List Cell)) (p : Nat × Nat) :
    sameShape g (mineBody g p) := by
  unfold mineBody
  cases getCell g p.1 p.2 with
  | none => exact sameShape_refl g
  | some cell => exact sameShape_setCellG g p.1 p.2 _

theorem mine_fold_getCell (sample : List (Nat × Nat)) (hnd : sample.Nodup)
    (g : List (List Cell)) (r c : Nat) :
    getCell (sample.foldl mineBody g) r c =
      if (r, c) ∈ sample then
        (getCell g r c).map (fun cell => { cell with is_mine := true })
      else getCell g r c := by
  have h := foldl_body_char (fun g r c => mineBody g (r, c)) _
    (fun g r c r' c' h => mineBody_local g (r, c) r' c' h)
    (fun g r c => mineBody_act g (r, c)) sample g hnd r c
  exact h

theorem mine_fold_shape (sample : List (Nat × Nat)) (g : List (List Cell)) :
    sameShape g (sample.foldl mineBody g) :=
  sameShape_foldl mineBody mineBody_shape sample g

theorem adjBody_local (rows cols : Nat) (g : List (List Cell)) (r c r' c' : Nat)
    (h : ¬(r' = r ∧ c' = c)) :
    getCell (adjBody rows cols g r c) r' c' = getCell g r' c' := by
  unfold adjBody
  cases hcell : getCell g r c with
  | none => rfl
  | some cell =>
    by_cases hm : cell.is_mine <;> simp [hm, getCell_setCellG_ne _ h]

theorem adjBody_act (rows cols : Nat) (g : List (List Cell)) (r c : Nat) :
    getCell (adjBody rows cols g r c) r c =
      (getCell g r c).map (adjAct rows cols g r c) := by
  unfold adjBody adjAct
  cases hcell : getCell g r c with
  | none => simp [hcell]
  | some cell =>
    by_cases hm : cell.is_mine <;> simp [hm, getCell_setCellG_self _ hcell, hcell]

theorem adjBody_shape (rows cols : Nat) (g : List (List Cell)) (r c : Nat) :
    sameShape g (adjBody rows cols g r c) := by
  unfold adjBody
  cases getCell g r c with
  | none => exact sameShape_refl g
  | some cell =>
    by_cases hm : cell.is_mine <;> simp [hm, sameShape_setCellG, sameShape_refl]

theorem adjBody_mine_stable (rows cols : Nat) (g : List (List Cell)) (r c r' c' : Nat) :
    (getCell (adjBody rows cols g r c) r' c').map Cell.is_mine =
      (getCell g r' c').map Cell.is_mine := by
  by_cases h : r' = r ∧ c' = c
  · obtain ⟨rfl, rfl⟩ := h
    rw [adjBody_act]
    cases getCell g r' c' with
    | none => rfl
    | some cell =>
      unfold adjAct
      by_cases hm : cell.is_mine <;> simp [hm]
  · rw [adjBody_local rows cols g r c r' c' h]

theorem getCellD_mine_of_stable {g g' : List (List Cell)}
    (h : ∀ r c, (getCell g' r c).map Cell.is_mine = (getCell g r c).map Cell.is_mine)
    (r c : Nat) : (getCellD g' r c).is_mine = (getCellD g r c).is_mine := by
  have hrc := h r c
  unfold getCellD
  cases ha : getCell g r c <;> cases hb : getCell g' r c <;>
    rw [ha, hb] at hrc <;> simp_all

theorem countMineNeighbors_congr {rows cols : Nat} {g g' : List (List Cell)}
    (h : ∀ r c, (getCell g' r c).map Cell.is_mine = (getCell g r c).map Cell.is_mine)
    (r c : Nat) :
    countMineNeighbors rows cols g' r c = countMineNeighbors rows cols g r c := by
  unfold countMineNeighbors
  exact List.countP_congr (fun p _ => by
    rw [getCellD_mine_of_stable h p.1 p.2])

theorem adjAct_congr {rows cols : Nat} {g g' : List (List Cell)}
    (h : ∀ r c, (getCell g' r c).map Cell.is_mine = (getCell g r c).map Cell.is_mine)
    (r c : Nat) (cell : Cell) :
    adjAct rows cols g' r c cell = adjAct rows cols g r c cell := by
  unfold adjAct
  rw [countMineNeighbors_congr h]

theorem cam_fold_char (rows cols : Nat) :
    ∀ (ps : List (Nat × Nat)) (g : List (List Cell)), ps.Nodup →
      ∀ r c, getCell (ps.foldl (fun g' p => adjBody rows cols g' p.1 p.2) g) r c =
        if (r, c) ∈ ps then (getCell g r c).map (adjAct rows cols g r c)
        else getCell g r c := by
  intro ps
  induction ps with
  | nil => simp
  | cons p ps ih =>
    intro g hnd r c
    obtain ⟨hpnotmem, hndtail⟩ := List.nodup_cons.1 hnd
    simp only [List.foldl_cons]
    rw [ih _ hndtail]
    have hstable : ∀ r' c',
        (getCell (adjBody rows cols g p.1 p.2) r' c').map Cell.is_mine =
          (getCell g r' c').map Cell.is_mine :=
      fun r' c' => adjBody_mine_stable rows cols g p.1 p.2 r' c'
    by_cases hmem : (r, c) ∈ ps
    · have hne : ¬((r, c) = p) := fun hh => hpnotmem (hh ▸ hmem)
      rw [adjBody_local rows cols g p.1 p.2 r c (fun hh => hne (by rw [hh.1, hh.2]))]
      have hcons : (r, c) ∈ p :: ps := List.mem_cons_of_mem _ hmem
      simp only [hmem, if_true, hcons]
      cases getCell g r c with
      | none => rfl
      | some cell => simp [adjAct_congr hstable]
    · by_cases hp : (r, c) = p
      · have h1 : r = p.1 := congrArg Prod.fst hp
        have h2 : c = p.2 := congrArg Prod.snd hp
        subst h1
        subst h2
        simp only [hmem, if_false]
        rw [adjBody_act]
        simp [List.mem_cons]
      · rw [adjBody_local rows cols g p.1 p.2 r c (fun hh => hp (by rw [hh.1, hh.2]))]
        have hncons : (r, c) ∉ p :: ps := by
          intro hh
          rcases List.mem_cons.1 hh with hh | hh
          · exact hp hh
          · exact hmem hh
        simp only [hmem, if_false, hncons]

theorem calculate_adjacent_mines_getCell (b : Board) (r c : Nat) :
    getCell (calculate_adjacent_mines b).grid r c =
      if r < b.rows ∧ c < b.cols then
        (getCell b.grid r c).map (adjAct b.rows b.cols b.grid r c)
      else getCell b.grid r c := by
  show getCell (forCells b.rows b.cols (adjBody b.rows b.cols) b.grid) r c = _
  rw [forCells_eq_foldl]
  rw [cam_fold_char b.rows b.cols _ _ (nodup_allPositions _ _) r c]
  simp only [mem_allPositions]

theorem calculate_adjacent_mines_shape (b : Board) :
    sameShape b.grid (calculate_adjacent_mines b).grid := by
  show sameShape b.grid (forCells b.rows b.cols (adjBody b.rows b.cols) b.grid)
  exact sameShape_forCells _ _ _ (adjBody_shape b.rows b.cols) _

/-! ### The flood-reveal step relation -/

theorem CellEvolves.refl_self (x : Cell) : CellEvolves x x := ⟨rfl, rfl, Or.inl rfl⟩

theorem CellEvolves.trans_self {x y z : Cell} (h1 : CellEvolves x y) (h2 : CellEvolves y z) :
    CellEvolves x z := by
  obtain ⟨m1, a1, s1⟩ := h1
  obtain ⟨m2, a2, s2⟩ := h2
  refine ⟨m2.trans m1, a2.trans a1, ?_⟩
  rcases s1 with s1 | ⟨s1a, s1b⟩ <;> rcases s2 with s2 | ⟨s2a, s2b⟩
  · exact Or.inl (s2.trans s1)
  · exact Or.inr ⟨s1 ▸ s2a, s2b⟩
  · exact Or.inr ⟨s1a, s2 ▸ s1b⟩
  · exact Or.inr ⟨s1a, s2b⟩

theorem OptEvolves.refl_opt : ∀ (o : Option Cell), OptEvolves o o
  | none => trivial
  | some x => CellEvolves.refl_self x

theorem OptEvolves.trans_opt : ∀ {o1 o2 o3 : Option Cell},
    OptEvolves o1 o2 → OptEvolves o2 o3 → OptEvolves o1 o3
  | none, none, none, _, _ => trivial
  | some _, some _, some _, h1, h2 => CellEvolves.trans_self h1 h2
  | none, some _, _, h1, _ => absurd h1 (by simp [OptEvolves])
  | some _, none, _, h1, _ => absurd h1 (by simp [OptEvolves])
  | none, none, some _, _, h2 => absurd h2 (by simp [OptEvolves])
  | some _, some _, none, _, h2 => absurd h2 (by simp [OptEvolves])

theorem StepR.refl_step (b : Board) : StepR b b where
  rows_eq := rfl
  cols_eq := rfl
  mines_eq := rfl
  first_eq := rfl
  flags_eq := rfl
  safe_eq := rfl
  shape := sameShape_refl b.grid
  evolves := fun r c => OptEvolves.refl_opt _
  counters := rfl
  flagcnt := rfl
  minecnt := rfl
  hidden_le := Nat.le_refl _
  gs := Or.inl rfl
  mine_lost := fun r c x y hx hy _ hxs hys => by
    rw [hx] at hy
    cases hy
    exact absurd hys hxs

theorem StepR.trans_step {b1 b2 b3 : Board} (h1 : StepR b1 b2) (h2 : StepR b2 b3) :
    StepR b1 b3 where
  rows_eq := h2.rows_eq.trans h1.rows_eq
  cols_eq := h2.cols_eq.trans h1.cols_eq
  mines_eq := h2.mines_eq.trans h1.mines_eq
  first_eq := h2.first_eq.trans h1.first_eq
  flags_eq := h2.flags_eq.trans h1.flags_eq
  safe_eq := h2.safe_eq.trans h1.safe_eq
  shape := sameShape_trans h1.shape h2.shape
  evolves := fun r c => OptEvolves.trans_opt (h1.evolves r c) (h2.evolves r c)
  counters := by
    have c1 := h1.counters
    have c2 := h2.counters
    omega
  flagcnt := h2.flagcnt.trans h1.flagcnt
  minecnt := h2.minecnt.trans h1.minecnt
  hidden_le := h2.hidden_le.trans h1.hidden_le
  gs := by
    rcases h2.gs with hg2 | hg2
    · rcases h1.gs with hg1 | hg1
      · exact Or.inl (hg2.trans hg1)
      · exact Or.inr (hg2.trans hg1)
    · exact Or.inr hg2
  mine_lost := by
    intro r c x z hx hz hzm hxs hzs
    have hev := h1.evolves r c
    rw [hx] at hev
    cases hy : getCell b2.grid r c with
    | none => rw [hy] at hev; exact absurd hev (by simp [OptEvolves])
    | some y =>
      rw [hy] at hev
      obtain ⟨hym, _, hysc⟩ := hev
      by_cases hyr : y.state = CellState.REVEALED
      · have hyzm : y.is_mine = true := by
          have hev2 := h2.evolves r c
          rw [hy, hz] at hev2
          rw [hev2.1] at hzm
          exact hzm
        have hlost2 : b2.game_state = GameState.LOST :=
          h1.mine_lost r c x y hx hy hyzm hxs hyr
        rcases h2.gs with hg | hg
        · rw [hg, hlost2]
        · exact hg
      · exact h2.mine_lost r c y z hy hz hzm hyr hzs

/-! ### One-step reveal boards -/

theorem step_reveal_safe {b : Board} {row col : Nat} {cell : Cell}
    (hcell : getCell b.grid row col = some cell) (hhid : cell.state = CellState.HIDDEN)
    (hm : cell.is_mine = false) :
    StepR b { b with grid := setCellG b.grid row col { cell with state := .REVEALED },
                     cells_revealed := b.cells_revealed + 1 } where
  rows_eq := rfl
  cols_eq := rfl
  mines_eq := rfl
  first_eq := rfl
  flags_eq := rfl
  safe_eq := rfl
  shape := sameShape_setCellG _ _ _ _
  evolves := by
    intro r c
    by_cases h : r = row ∧ c = col
    · obtain ⟨rfl, rfl⟩ := h
      show OptEvolves (getCell b.grid r c) (getCell (setCellG b.grid r c _) r c)
      rw [hcell, getCell_setCellG_self _ hcell]
      exact ⟨rfl, rfl, Or.inr ⟨hhid, rfl⟩⟩
    · show OptEvolves (getCell b.grid r c) (getCell (setCellG b.grid row col _) r c)
      rw [getCell_setCellG_ne _ h]
      exact OptEvolves.refl_opt _
  counters := by
    have h0 := countCells_setCellG (fun cell => decide (cell.state = .REVEALED))
      { cell with state := .REVEALED } hcell
    simp [hhid] at h0
    show b.cells_revealed + 1 + revealedCount b =
      b.cells_revealed + countCells (fun cell => decide (cell.state = .REVEALED))
        (setCellG b.grid row col { cell with state := .REVEALED })
    unfold revealedCount
    omega
  flagcnt := by
    have h0 := countCells_setCellG (fun cell => decide (cell.state = .FLAGGED))
      { cell with state := .REVEALED } hcell
    simp [hhid] at h0
    show countCells (fun cell => decide (cell.state = .FLAGGED))
        (setCellG b.grid row col { cell with state := .REVEALED }) = flaggedCount b
    unfold flaggedCount
    omega
  minecnt := by
    have h0 := countCells_setCellG (fun cell => cell.is_mine)
      { cell with state := .REVEALED } hcell
    simp at h0
    show countCells (fun cell => cell.is_mine)
        (setCellG b.grid row col { cell with state := .REVEALED }) = mineCount b
    unfold mineCount
    omega
  hidden_le := by
    have h0 := countCells_setCellG (fun cell => decide (cell.state = .HIDDEN))
      { cell with state := .REVEALED } hcell
    simp [hhid] at h0
    show countCells (fun cell => decide (cell.state = .HIDDEN))
        (setCellG b.grid row col { cell with state := .REVEALED }) ≤ hiddenCount b
    unfold hiddenCount
    omega
  gs := Or.inl rfl
  mine_lost := by
    intro r c x y hx hy hym hxs hys
    by_cases h : r = row ∧ c = col
    · obtain ⟨rfl, rfl⟩ := h
      rw [hcell] at hx
      cases hx
      rw [getCell_setCellG_self _ hcell] at hy
      cases hy
      simp at hym
      rw [hym] at hm
      cases hm
    · rw [getCell_setCellG_ne _ h] at hy
      rw [hx] at hy
      cases hy
      exact absurd hys hxs

theorem step_reveal_mine {b : Board} {row col : Nat} {cell : Cell}
    (hcell : getCell b.grid row col = some cell) (hhid : cell.state = CellState.HIDDEN) :
    StepR b { b with grid := setCellG b.grid row col { cell with state := .REVEALED },
                     cells_revealed := b.cells_revealed + 1,
                     game_state := GameState.LOST } where
  rows_eq := rfl
  cols_eq := rfl
  mines_eq := rfl
  first_eq := rfl
  flags_eq := rfl
  safe_eq := rfl
  shape := sameShape_setCellG _ _ _ _
  evolves := by
    intro r c
    by_cases h : r = row ∧ c = col
    · obtain ⟨rfl, rfl⟩ := h
      show OptEvolves (getCell b.grid r c) (getCell (setCellG b.grid r c _) r c)
      rw [hcell, getCell_setCellG_self _ hcell]
      exact ⟨rfl, rfl, Or.inr ⟨hhid, rfl⟩⟩
    · show OptEvolves (getCell b.grid r c) (getCell (setCellG b.grid row col _) r c)
      rw [getCell_setCellG_ne _ h]
      exact OptEvolves.refl_opt _
  counters := by
    have h0 := countCells_setCellG (fun cell => decide (cell.state = .REVEALED))
      { cell with state := .REVEALED } hcell
    simp [hhid] at h0
    show b.cells_revealed + 1 + revealedCount b =
      b.cells_revealed + countCells (fun cell => decide (cell.state = .REVEALED))
        (setCellG b.grid row col { cell with state := .REVEALED })
    unfold revealedCount
    omega
  flagcnt := by
    have h0 := countCells_setCellG (fun cell => decide (cell.state = .FLAGGED))
      { cell with state := .REVEALED } hcell
    simp [hhid] at h0
    show countCells (fun cell => decide (cell.state = .FLAGGED))
        (setCellG b.grid row col { cell with state := .REVEALED }) = flaggedCount b
    unfold flaggedCount
    omega
  minecnt := by
    have h0 := countCells_setCellG (fun cell => cell.is_mine)
      { cell with state := .REVEALED } hcell
    simp at h0
    show countCells (fun cell => cell.is_mine)
        (setCellG b.grid row col { cell with state := .REVEALED }) = mineCount b
    unfold mineCount
    omega
  hidden_le := by
    have h0 := countCells_setCellG (fun cell => decide (cell.state = .HIDDEN))
      { cell with state := .REVEALED } hcell
    simp [hhid] at h0
    show countCells (fun cell => decide (cell.state = .HIDDEN))
        (setCellG b.grid row col { cell with state := .REVEALED }) ≤ hiddenCount b
    unfold hiddenCount
    omega
  gs := Or.inr rfl
  mine_lost := fun _ _ _ _ _ _ _ _ _ => rfl

/-! ### Properties of the fuelled flood reveal -/

theorem revealCellFuel_succ (fuel : Nat) (b : Board) (row col : Nat) :
    revealCellFuel (fuel + 1) b row col =
      match getCell b.grid row col with
      | none => (b, true)
      | some cell =>
        if cell.state ≠ CellState.HIDDEN then (b, true)
        else
          let b1 := { b with grid := setCellG b.grid row col { cell with state := .REVEALED },
                             cells_revealed := b.cells_revealed + 1 }
          if cell.is_mine then ({ b1 with game_state := .LOST }, false)
          else if cell.adjacent_mines = 0 then
            (revealLoop (fun b' r' c' => revealCellFuel fuel b' r' c') b1
              (get_neighbors b.rows b.cols row col), true)
          else (b1, true) := rfl

theorem revealLoop_cons (f : Board → Nat → Nat → Board × Bool) (b : Board)
    (p : Nat × Nat) (ps : List (Nat × Nat)) :
    revealLoop f b (p :: ps) =
      revealLoop f
        (match getCell b.grid p.1 p.2 with
          | some ncell => if ncell.state = CellState.HIDDEN then (f b p.1 p.2).1 else b
          | none => b) ps := rfl

theorem revealLoop_stepR (f : Board → Nat → Nat → Board × Bool)
    (hf : ∀ b r c, StepR b (f b r c).1) :
    ∀ (ps : List (Nat × Nat)) (b : Board), StepR b (revealLoop f b ps) := by
  intro ps
  induction ps with
  | nil => exact fun b => StepR.refl_step b
  | cons p ps ih =>
    intro b
    rw [revealLoop_cons]
    cases hcell : getCell b.grid p.1 p.2 with
    | none => exact ih b
    | some ncell =>
      by_cases hh : ncell.state = CellState.HIDDEN
      · simp only [hh, if_true, reduceIte]
        exact StepR.trans_step (hf b p.1 p.2) (ih _)
      · simp only [hh, if_false, reduceIte]
        exact ih b

theorem revealCellFuel_case_none {fuel : Nat} {b : Board} {row col : Nat}
    (hcell : getCell b.grid row col = none) :
    revealCellFuel (fuel + 1) b row col = (b, true) := by
  rw [revealCellFuel_succ, hcell]

theorem revealCellFuel_case_notHidden {fuel : Nat} {b : Board} {row col : Nat} {cell : Cell}
    (hcell : getCell b.grid row col = some cell) (hh : cell.state ≠ CellState.HIDDEN) :
    revealCellFuel (fuel + 1) b row col = (b, true) := by
  rw [revealCellFuel_succ, hcell]
  simp [hh]

theorem revealCellFuel_case_mine {fuel : Nat} {b : Board} {row col : Nat} {cell : Cell}
    (hcell : getCell b.grid row col = some cell) (hh : cell.state = CellState.HIDDEN)
    (hm : cell.is_mine = true) :
    revealCellFuel (fuel + 1) b row col =
      ({ b with grid := setCellG b.grid row col { cell with state := .REVEALED },
                cells_revealed := b.cells_revealed + 1,
                game_state := GameState.LOST }, false) := by
  rw [revealCellFuel_succ, hcell]
  simp [hh, hm]

theorem revealCellFuel_case_cascade {fuel : Nat} {b : Board} {row col : Nat} {cell : Cell}
    (hcell : getCell b.grid row col = some cell) (hh : cell.state = CellState.HIDDEN)
    (hm : cell.is_mine = false) (ha : cell.adjacent_mines = 0) :
    revealCellFuel (fuel + 1) b row col =
      (revealLoop (fun b' r' c' => revealCellFuel fuel b' r' c')
        { b with grid := setCellG b.grid row col { cell with state := .REVEALED },
                 cells_revealed := b.cells_revealed + 1 }
        (get_neighbors b.rows b.cols row col), true) := by
  rw [revealCellFuel_succ, hcell]
  simp [hh, hm, ha]

theorem revealCellFuel_case_plain {fuel : Nat} {b : Board} {row col : Nat} {cell : Cell}
    (hcell : getCell b.grid row col = some cell) (hh : cell.state = CellState.HIDDEN)
    (hm : cell.is_mine = false) (ha : cell.adjacent_mines ≠ 0) :
    revealCellFuel (fuel + 1) b row col =
      ({ b with grid := setCellG b.grid row col { cell with state := .REVEALED },
                cells_revealed := b.cells_revealed + 1 }, true) := by
  rw [revealCellFuel_succ, hcell]
  simp [hh, hm, ha]

theorem revealCellFuel_stepR :
    ∀ (fuel : Nat) (b : Board) (row col : Nat), StepR b (revealCellFuel fuel b row col).1 := by
  intro fuel
  induction fuel with
  | zero => exact fun b _ _ => StepR.refl_step b
  | succ fuel ih =>
    intro b row col
    cases hcell : getCell b.grid row col with
    | none => rw [revealCellFuel_case_none hcell]; exact StepR.refl_step b
    | some cell =>
      by_cases hh : cell.state = CellState.HIDDEN
      · by_cases hm : cell.is_mine
        · rw [revealCellFuel_case_mine hcell hh hm]
          exact step_reveal_mine hcell hh
        · have hm' : cell.is_mine = false := by simpa using hm
          by_cases ha : cell.adjacent_mines = 0
          · rw [revealCellFuel_case_cascade hcell hh hm' ha]
            exact StepR.trans_step (step_reveal_safe hcell hh hm')
              (revealLoop_stepR (fun b' r' c' => revealCellFuel fuel b' r' c') ih _ _)
          · rw [revealCellFuel_case_plain hcell hh hm' ha]
            exact step_reveal_safe hcell hh hm'
      · rw [revealCellFuel_case_notHidden hcell hh]
        exact StepR.refl_step b

theorem hiddenCount_revealCellFuel_le (fuel : Nat) (b : Board) (row col : Nat) :
    hiddenCount (revealCellFuel fuel b row col).1 ≤ hiddenCount b :=
  (revealCellFuel_stepR fuel b row col).hidden_le

/-- Fuel congruence for the neighbour loop: if two reveal functions
agree on all boards with at most `K` hidden cells and do not increase
the hidden count, the loops agree from any such board. -/
theorem revealLoop_congr (f g : Board → Nat → Nat → Board × Bool) (K : Nat)
    (hfg : ∀ b r c, hiddenCount b ≤ K → f b r c = g b r c)
    (hmono : ∀ b r c, hiddenCount (f b r c).1 ≤ hiddenCount b) :
    ∀ (ps : List (Nat × Nat)) (b : Board), hiddenCount b ≤ K →
      revealLoop f b ps = revealLoop g b ps := by
  intro ps
  induction ps with
  | nil => intro b _; rfl
  | cons p ps ih =>
    intro b hb
    rw [revealLoop_cons, revealLoop_cons]
    cases hcell : getCell b.grid p.1 p.2 with
    | none => exact ih b hb
    | some ncell =>
      by_cases hh : ncell.state = CellState.HIDDEN
      · simp only [hh, if_true, reduceIte]
        rw [← hfg b p.1 p.2 hb]
        exact ih _ (Nat.le_trans (hmono b p.1 p.2) hb)
      · simp only [hh, if_false, reduceIte]
        exact ih b hb

/-- The count of hidden cells strictly drops when a present hidden cell
is revealed. -/
theorem hiddenCount_after_reveal {b : Board} {row col : Nat} {cell : Cell}
    (hcell : getCell b.grid row col = some cell) (hhid : cell.state = CellState.HIDDEN) :
    hiddenCount { b with grid := setCellG b.grid row col { cell with state := .REVEALED },
                         cells_revealed := b.cells_revealed + 1 } + 1 = hiddenCount b := by
  have h0 := countCells_setCellG (fun cell => decide (cell.state = .HIDDEN))
    { cell with state := .REVEALED } hcell
  simp [hhid] at h0
  show countCells (fun cell => decide (cell.state = .HIDDEN))
      (setCellG b.grid row col { cell with state := .REVEALED }) + 1 = hiddenCount b
  unfold hiddenCount
  omega

/-- Fuel adequacy: any two fuels above the hidden-cell count give the
same reveal result. -/
theorem revealCellFuel_congr :
    ∀ (f : Nat) (b : Board) (row col : Nat) (g : Nat), hiddenCount b < f →
      hiddenCount b < g → revealCellFuel f b row col = revealCellFuel g b row col := by
  intro f
  induction f with
  | zero => intro b _ _ _ hf; omega
  | succ f ih =>
    intro b row col g hf hg
    cases g with
    | zero => omega
    | succ g =>
      cases hcell : getCell b.grid row col with
      | none => rw [revealCellFuel_case_none hcell, revealCellFuel_case_none hcell]
      | some cell =>
        by_cases hh : cell.state = CellState.HIDDEN
        · by_cases hm : cell.is_mine
          · rw [revealCellFuel_case_mine hcell hh hm, revealCellFuel_case_mine hcell hh hm]
          · have hm' : cell.is_mine = false := by simpa using hm
            by_cases ha : cell.adjacent_mines = 0
            · rw [revealCellFuel_case_cascade hcell hh hm' ha,
                revealCellFuel_case_cascade hcell hh hm' ha]
              have hdrop := hiddenCount_after_reveal hcell hh
              have hloop := revealLoop_congr
                (fun b' r' c' => revealCellFuel f b' r' c')
                (fun b' r' c' => revealCellFuel g b' r' c')
                (hiddenCount b - 1)
                (fun b' r' c' hb' => ih b' r' c' g (by omega) (by omega))
                (fun b' r' c' => hiddenCount_revealCellFuel_le f b' r' c')
                (get_neighbors b.rows b.cols row col)
                { b with grid := setCellG b.grid row col { cell with state := .REVEALED },
                         cells_revealed := b.cells_revealed + 1 }
                (by omega)
              rw [hloop]
            · rw [revealCellFuel_case_plain hcell hh hm' ha,
                revealCellFuel_case_plain hcell hh hm' ha]
        · rw [revealCellFuel_case_notHidden hcell hh, revealCellFuel_case_notHidden hcell hh]

/-! ### Adjacency consistency and cascade safety -/

theorem AdjConsistent.of_check {b : Board} (hwf : WF b) (h : AdjConsistentOn b) :
    AdjConsistent b := by
  intro r c cell hcell hm
  have hb := hwf.getCell_bounds hcell
  have hh := h r hb.1 c hb.2
  rw [getCellD_eq hcell] at hh
  exact hh hm

theorem OptEvolves.mine_eq : ∀ {o1 o2 : Option Cell}, OptEvolves o1 o2 →
    o2.map Cell.is_mine = o1.map Cell.is_mine
  | none, none, _ => rfl
  | some _, some _, h => by simp [h.1]
  | none, some _, h => absurd h (by simp [OptEvolves])
  | some _, none, h => absurd h (by simp [OptEvolves])

theorem AdjConsistent.of_stepR {b b' : Board} (h : AdjConsistent b) (hs : StepR b b') :
    AdjConsistent b' := by
  intro r c cell' hcell' hm'
  have hev := hs.evolves r c
  cases hcell : getCell b.grid r c with
  | none => rw [hcell, hcell'] at hev; exact absurd hev (by simp [OptEvolves])
  | some cell =>
    rw [hcell, hcell'] at hev
    obtain ⟨hmeq, haeq, _⟩ := hev
    have hbase := h r c cell hcell (hmeq ▸ hm')
    rw [haeq, hbase, hs.rows_eq, hs.cols_eq]
    exact (countMineNeighbors_congr (fun r c => (hs.evolves r c).mine_eq) r c).symm

theorem StepR.wf {b b' : Board} (hs : StepR b b') (hwf : WF b) : WF b' :=
  WF_of_sameShape hwf hs.shape hs.rows_eq hs.cols_eq

/-- A cell already `REVEALED` stays exactly in place across a step, with
all fields intact except possibly none. -/
theorem StepR.revealed_stable {b b' : Board} (hs : StepR b b') {r c : Nat} {x : Cell}
    (hx : getCell b.grid r c = some x) (hxs : x.state = CellState.REVEALED) :
    ∃ y, getCell b'.grid r c = some y ∧ y.state = CellState.REVEALED ∧
      y.is_mine = x.is_mine ∧ y.adjacent_mines = x.adjacent_mines := by
  have hev := hs.evolves r c
  cases hy : getCell b'.grid r c with
  | none => rw [hx, hy] at hev; exact absurd hev (by simp [OptEvolves])
  | some y =>
    rw [hx, hy] at hev
    obtain ⟨hm, ha, hst⟩ := hev
    refine ⟨y, rfl, ?_, hm, ha⟩
    rcases hst with hst | ⟨hxh, hyr⟩
    · rw [hst, hxs]
    · rw [hxh] at hxs
      cases hxs

/-- The neighbour-loop of a cascade from a zero-adjacency cell: when no
listed neighbour is a mine, the loop reveals safely (game state
untouched, every mine cell untouched). -/
theorem revealLoop_safe (fuel : Nat)
    (hf : ∀ (b : Board) (row col : Nat), WF b → AdjConsistent b →
      (∀ cell, getCell b.grid row col = some cell → cell.is_mine = false) →
      (revealCellFuel fuel b row col).2 = true ∧
      (revealCellFuel fuel b row col).1.game_state = b.game_state ∧
      (∀ r c x, getCell b.grid r c = some x → x.is_mine = true →
        getCell (revealCellFuel fuel b row col).1.grid r c = some x)) :
    ∀ (ps : List (Nat × Nat)) (b : Board), WF b → AdjConsistent b →
      (∀ p ∈ ps, ∀ x, getCell b.grid p.1 p.2 = some x → x.is_mine = false) →
      (revealLoop (fun b' r' c' => revealCellFuel fuel b' r' c') b ps).game_state =
        b.game_state ∧
      (∀ r c x, getCell b.grid r c = some x → x.is_mine = true →
        getCell (revealLoop (fun b' r' c' => revealCellFuel fuel b' r' c') b ps).grid r c =
          some x) := by
  intro ps
  induction ps with
  | nil => exact fun b _ _ _ => ⟨rfl, fun r c x hx _ => hx⟩
  | cons p ps ih =>
    intro b hwf hadj hps
    rw [revealLoop_cons]
    cases hcell : getCell b.grid p.1 p.2 with
    | none => exact ih b hwf hadj (fun q hq => hps q (List.mem_cons_of_mem _ hq))
    | some ncell =>
      by_cases hh : ncell.state = CellState.HIDDEN
      · simp only [hh, if_true, reduceIte]
        have hnm : ∀ cell, getCell b.grid p.1 p.2 = some cell → cell.is_mine = false := by
          intro cell hc
          rw [hcell] at hc
          cases hc
          exact hps p (List.mem_cons_self _ _) _ hcell
        obtain ⟨hsnd, hgs, hmines⟩ := hf b p.1 p.2 hwf hadj hnm
        set b2 := (revealCellFuel fuel b p.1 p.2).1 with hb2
        have hstep : StepR b b2 := revealCellFuel_stepR fuel b p.1 p.2
        have hwf2 : WF b2 := hstep.wf hwf
        have hadj2 : AdjConsistent b2 := AdjConsistent.of_stepR hadj hstep
        have hps2 : ∀ q ∈ ps, ∀ x, getCell b2.grid q.1 q.2 = some x → x.is_mine = false := by
          intro q hq x hx
          have hev := hstep.evolves q.1 q.2
          cases hq0 : getCell b.grid q.1 q.2 with
          | none => rw [hq0, hx] at hev; exact absurd hev (by simp [OptEvolves])
          | some x0 =>
            rw [hq0, hx] at hev
            rw [hev.1]
            exact hps q (List.mem_cons_of_mem _ hq) x0 hq0
        obtain ⟨hgs2, hmines2⟩ := ih b2 hwf2 hadj2 hps2
        refine ⟨hgs2.trans hgs, ?_⟩
        intro r c x hx hxm
        exact hmines2 r c x (hmines r c x hx hxm) hxm
      · simp only [hh, if_false, reduceIte]
        exact ih b hwf hadj (fun q hq => hps q (List.mem_cons_of_mem _ hq))

/-- Revealing a non-mine cell on an adjacency-consistent board: the call
returns `True`, never changes `game_state`, and never touches a mine
cell (the cascade only recurses from zero-adjacency cells, all of whose
neighbours are safe). -/
theorem revealCellFuel_safe :
    ∀ (fuel : Nat) (b : Board) (row col : Nat), WF b → AdjConsistent b →
      (∀ cell, getCell b.grid row col = some cell → cell.is_mine = false) →
      (revealCellFuel fuel b row col).2 = true ∧
      (revealCellFuel fuel b row col).1.game_state = b.game_state ∧
      (∀ r c x, getCell b.grid r c = some x → x.is_mine = true →
        getCell (revealCellFuel fuel b row col).1.grid r c = some x) := by
  intro fuel
  induction fuel with
  | zero => exact fun b _ _ _ _ _ => ⟨rfl, rfl, fun r c x hx _ => hx⟩
  | succ fuel ih =>
    intro b row col hwf hadj hnm
    cases hcell : getCell b.grid row col with
    | none =>
      rw [revealCellFuel_case_none hcell]
      exact ⟨rfl, rfl, fun r c x hx _ => hx⟩
    | some cell =>
      by_cases hh : cell.state = CellState.HIDDEN
      · have hm : cell.is_mine = false := hnm cell hcell
        have hb1mines : ∀ r c x, getCell b.grid r c = some x → x.is_mine = true →
            getCell (setCellG b.grid row col { cell with state := CellState.REVEALED }) r c =
              some x := by
          intro r c x hx hxm
          have hne : ¬(r = row ∧ c = col) := by
            rintro ⟨rfl, rfl⟩
            rw [hcell] at hx
            cases hx
            rw [hxm] at hm
            cases hm
          rw [getCell_setCellG_ne _ hne]
          exact hx
        by_cases ha : cell.adjacent_mines = 0
        · rw [revealCellFuel_case_cascade hcell hh hm ha]
          set b1 : Board :=
            { b with grid := setCellG b.grid row col { cell with state := .REVEALED },
                     cells_revealed := b.cells_revealed + 1 } with hb1def
          have hstep1 : StepR b b1 := step_reveal_safe hcell hh hm
          have hwf1 : WF b1 := hstep1.wf hwf
          have hadj1 : AdjConsistent b1 := AdjConsistent.of_stepR hadj hstep1
          have hcount : countMineNeighbors b.rows b.cols b.grid row col = 0 := by
            have := hadj row col cell hcell hm
            omega
          have hnbrs : ∀ p ∈ get_neighbors b.rows b.cols row col,
              ((getCellD b.grid p.1 p.2).is_mine : Bool) = false := by
            have hz := (List.countP_eq_zero).1 hcount
            intro p hp
            simpa using hz p hp
          have hps1 : ∀ p ∈ get_neighbors b.rows b.cols row col, ∀ x,
              getCell b1.grid p.1 p.2 = some x → x.is_mine = false := by
            intro p hp x hx
            have hmine_stable : (getCell b1.grid p.1 p.2).map Cell.is_mine =
                (getCell b.grid p.1 p.2).map Cell.is_mine :=
              (hstep1.evolves p.1 p.2).mine_eq
            rw [hx] at hmine_stable
            cases hq0 : getCell b.grid p.1 p.2 with
            | none => rw [hq0] at hmine_stable; cases hmine_stable
            | some x0 =>
              rw [hq0] at hmine_stable
              have hx0 : (getCellD b.grid p.1 p.2) = x0 := getCellD_eq hq0
              have := hnbrs p hp
              rw [hx0] at this
              simp at hmine_stable
              rw [hmine_stable]
              exact this
          obtain ⟨hgs1, hmines1⟩ := revealLoop_safe fuel ih
            (get_neighbors b.rows b.cols row col) b1 hwf1 hadj1 hps1
          refine ⟨rfl, hgs1.trans rfl, ?_⟩
          intro r c x hx hxm
          exact hmines1 r c x (hb1mines r c x hx hxm) hxm
        · rw [revealCellFuel_case_plain hcell hh hm ha]
          exact ⟨rfl, rfl, fun r c x hx hxm => hb1mines r c x hx hxm⟩
      · rw [revealCellFuel_case_notHidden hcell hh]
        exact ⟨rfl, rfl, fun r c x hx _ => hx⟩

/-! ### Case equations for the public operations -/

theorem reveal_not_playing {b : Board} {row col : Nat} {sample : List (Nat × Nat)}
    (h : b.game_state ≠ GameState.PLAYING) : reveal b row col sample = (b, false) := by
  unfold reveal
  rw [if_pos h]

theorem reveal_oob {b : Board} {row col : Nat} {sample : List (Nat × Nat)}
    (hgs : b.game_state = GameState.PLAYING) (h : ¬(row < b.rows ∧ col < b.cols)) :
    reveal b row col sample = (b, false) := by
  unfold reveal
  rw [if_neg (not_not_intro hgs), if_pos h]

theorem reveal_flagged {b : Board} {row col : Nat} {sample : List (Nat × Nat)}
    (hgs : b.game_state = GameState.PLAYING) (hb : row < b.rows ∧ col < b.cols)
    (hf : (getCellD b.grid row col).state = CellState.FLAGGED) :
    reveal b row col sample = (b, false) := by
  unfold reveal
  rw [if_neg (not_not_intro hgs), if_neg (not_not_intro hb)]
  simp only [hf, if_true, reduceIte]

theorem reveal_revealed {b : Board} {row col : Nat} {sample : List (Nat × Nat)}
    (hgs : b.game_state = GameState.PLAYING) (hb : row < b.rows ∧ col < b.cols)
    (hr : (getCellD b.grid row col).state = CellState.REVEALED) :
    reveal b row col sample = (b, false) := by
  unfold reveal
  rw [if_neg (not_not_intro hgs), if_neg (not_not_intro hb)]
  simp only [hr, reduceIte]
  simp

theorem reveal_go {b : Board} {row col : Nat} {sample : List (Nat × Nat)}
    (hgs : b.game_state = GameState.PLAYING) (hb : row < b.rows ∧ col < b.cols)
    (hf : (getCellD b.grid row col).state ≠ CellState.FLAGGED)
    (hr : (getCellD b.grid row col).state ≠ CellState.REVEALED) :
    reveal b row col sample =
      (let b1 := if b.first_move then { place_mines b sample with first_move := false } else b
       let res := revealCell b1 row col
       if res.2 && are_all_safe_cells_revealed res.1 then
         (reveal_all_mines { res.1 with game_state := .WON }, res.2)
       else res) := by
  unfold reveal
  rw [if_neg (not_not_intro hgs), if_neg (not_not_intro hb)]
  simp only [hf, hr, reduceIte]

theorem flag_not_playing {b : Board} {row col : Nat}
    (h : b.game_state ≠ GameState.PLAYING) : flag b row col = (b, false) := by
  unfold flag
  rw [if_pos h]

theorem flag_oob {b : Board} {row col : Nat}
    (hgs : b.game_state = GameState.PLAYING) (h : ¬(row < b.rows ∧ col < b.cols)) :
    flag b row col = (b, false) := by
  unfold flag
  rw [if_neg (not_not_intro hgs), if_pos h]

theorem flag_revealed {b : Board} {row col : Nat}
    (hgs : b.game_state = GameState.PLAYING) (hb : row < b.rows ∧ col < b.cols)
    (hr : (getCellD b.grid row col).state = CellState.REVEALED) :
    flag b row col = (b, false) := by
  unfold flag
  rw [if_neg (not_not_intro hgs), if_neg (not_not_intro hb)]
  simp only [hr, reduceIte]

theorem flag_unflag {b : Board} {row col : Nat}
    (hgs : b.game_state = GameState.PLAYING) (hb : row < b.rows ∧ col < b.cols)
    (hf : (getCellD b.grid row col).state = CellState.FLAGGED) :
    flag b row col =
      ({ b with grid := setCellG b.grid row col
                  { getCellD b.grid row col with state := .HIDDEN },
                flags_placed := b.flags_placed - 1 }, true) := by
  unfold flag
  rw [if_neg (not_not_intro hgs), if_neg (not_not_intro hb)]
  simp only [hf, reduceIte]
  simp

theorem flag_set {b : Board} {row col : Nat}
    (hgs : b.game_state = GameState.PLAYING) (hb : row < b.rows ∧ col < b.cols)
    (hr : (getCellD b.grid row col).state ≠ CellState.REVEALED)
    (hf : (getCellD b.grid row col).state ≠ CellState.FLAGGED) :
    flag b row col =
      ({ b with grid := setCellG b.grid row col
                  { getCellD b.grid row col with state := .FLAGGED },
                flags_placed := b.flags_placed + 1 }, true) := by
  unfold flag
  rw [if_neg (not_not_intro hgs), if_neg (not_not_intro hb)]
  simp only [hr, hf, reduceIte]

theorem chord_not_playing {b : Board} {row col : Nat}
    (h : b.game_state ≠ GameState.PLAYING) : chord_reveal b row col = (b, false) := by
  unfold chord_reveal
  rw [if_pos h]

theorem chord_oob {b : Board} {row col : Nat}
    (hgs : b.game_state = GameState.PLAYING) (h : ¬(row < b.rows ∧ col < b.cols)) :
    chord_reveal b row col = (b, false) := by
  unfold chord_reveal
  rw [if_neg (not_not_intro hgs), if_pos h]

theorem chord_not_revealed {b : Board} {row col : Nat}
    (hgs : b.game_state = GameState.PLAYING) (hb : row < b.rows ∧ col < b.cols)
    (hr : (getCellD b.grid row col).state ≠ CellState.REVEALED) :
    chord_reveal b row col = (b, false) := by
  unfold chord_reveal
  rw [if_neg (not_not_intro hgs), if_neg (not_not_intro hb)]
  simp [hr]

theorem chord_mine {b : Board} {row col : Nat}
    (hgs : b.game_state = GameState.PLAYING) (hb : row < b.rows ∧ col < b.cols)
    (hr : (getCellD b.grid row col).state = CellState.REVEALED)
    (hm : (getCellD b.grid row col).is_mine = true) :
    chord_reveal b row col = (b, false) := by
  unfold chord_reveal
  rw [if_neg (not_not_intro hgs), if_neg (not_not_intro hb)]
  simp [hr, hm]

theorem chord_badflags {b : Board} {row col : Nat}
    (hgs : b.game_state = GameState.PLAYING) (hb : row < b.rows ∧ col < b.cols)
    (hr : (getCellD b.grid row col).state = CellState.REVEALED)
    (hm : (getCellD b.grid row col).is_mine = false)
    (hfc : (get_neighbors b.rows b.cols row col).countP
        (fun p => decide ((getCellD b.grid p.1 p.2).state = CellState.FLAGGED)) ≠
      (getCellD b.grid row col).adjacent_mines) :
    chord_reveal b row col = (b, false) := by
  unfold chord_reveal
  rw [if_neg (not_not_intro hgs), if_neg (not_not_intro hb)]
  simp [hr, hm, hfc]

theorem chord_go {b : Board} {row col : Nat}
    (hgs : b.game_state = GameState.PLAYING) (hb : row < b.rows ∧ col < b.cols)
    (hr : (getCellD b.grid row col).state = CellState.REVEALED)
    (hm : (getCellD b.grid row col).is_mine = false)
    (hfc : (get_neighbors b.rows b.cols row col).countP
        (fun p => decide ((getCellD b.grid p.1 p.2).state = CellState.FLAGGED)) =
      (getCellD b.grid row col).adjacent_mines) :
    chord_reveal b row col =
      (let res := chordLoop b (get_neighbors b.rows b.cols row col)
       if res.2 && are_all_safe_cells_revealed res.1 then
         (reveal_all_mines { res.1 with game_state := .WON }, res.2)
       else res) := by
  unfold chord_reveal
  rw [if_neg (not_not_intro hgs), if_neg (not_not_intro hb)]
  simp [hr, hm, hfc]

theorem chordLoop_cons (b : Board) (p : Nat × Nat) (ps : List (Nat × Nat)) :
    chordLoop b (p :: ps) =
      (if (getCellD b.grid p.1 p.2).state = CellState.HIDDEN then
        (if (revealCell b p.1 p.2).2 then chordLoop (revealCell b p.1 p.2).1 ps
         else ((revealCell b p.1 p.2).1, false))
       else chordLoop b ps) := rfl

theorem revealCell_stepR (b : Board) (row col : Nat) : StepR b (revealCell b row col).1 :=
  revealCellFuel_stepR _ b row col

theorem chordLoop_stepR : ∀ (ps : List (Nat × Nat)) (b : Board), StepR b (chordLoop b ps).1 := by
  intro ps
  induction ps with
  | nil => exact fun b => StepR.refl_step b
  | cons p ps ih =>
    intro b
    rw [chordLoop_cons]
    by_cases hh : (getCellD b.grid p.1 p.2).state = CellState.HIDDEN
    · simp only [hh, if_true, reduceIte]
      by_cases hs : (revealCell b p.1 p.2).2
      · simp only [hs, if_true, reduceIte]
        exact StepR.trans_step (revealCell_stepR b p.1 p.2) (ih _)
      · simp only [hs, if_false, reduceIte]
        exact revealCell_stepR b p.1 p.2
    · simp only [hh, if_false, reduceIte]
      exact ih b

/-! ### Helper: writing the same position twice -/

theorem setCellG_setCellG (g : List (List Cell)) (r c : Nat) (x y : Cell) :
    setCellG (setCellG g r c x) r c y = setCellG g r c y := by
  unfold setCellG
  by_cases hlt : r < g.length
  · have hrow : g[r]? = some g[r] := List.getElem?_eq_getElem hlt
    have hgd : g.getD r [] = g[r] := by simp [List.getD, List.get?_eq_getElem?, hrow]
    rw [hgd]
    have hlt' : r < (g.set r (g[r].set c x)).length := by simpa using hlt
    have hrow' : (g.set r (g[r].set c x))[r]? = some (g[r].set c x) :=
      List.getElem?_set_self hlt
    have hgd' : (g.set r (g[r].set c x)).getD r [] = g[r].set c x := by
      simp [List.getD, List.get?_eq_getElem?, hrow']
    rw [hgd', List.set_set, List.set_set]
  · have hle : g.length ≤ r := by omega
    rw [List.set_eq_of_length_le hle, List.set_eq_of_length_le hle]

/-! ### Claim theorems -/

/-- C4: once a board's `game_state` is WON or LOST it is terminal: every
subsequent `reveal`, `flag` and `chord_reveal` returns failure and leaves
the board completely unchanged, and only `reset` returns the board to
PLAYING. -/
theorem claim_C4 : ∀ (b : Board) (row col : Nat) (sample : List (Nat × Nat)),
    (b.game_state = GameState.WON ∨ b.game_state = GameState.LOST) →
    reveal b row col sample = (b, false) ∧ flag b row col = (b, false) ∧
      chord_reveal b row col = (b, false) ∧ (reset b).game_state = GameState.PLAYING := by
  intro b row col sample h
  have hne : b.game_state ≠ GameState.PLAYING := by
    rcases h with h | h <;> rw [h] <;> simp
  exact ⟨reveal_not_playing hne, flag_not_playing hne, chord_not_playing hne, rfl⟩

/-- C4 witness: the guards fire on a concrete won board. -/
theorem claim_C4_witness :
    reveal finishedBoard 0 0 [] = (finishedBoard, false) ∧
      flag finishedBoard 0 0 = (finishedBoard, false) ∧
      chord_reveal finishedBoard 0 0 = (finishedBoard, false) ∧
      (reset finishedBoard).game_state = GameState.PLAYING :=
  claim_C4 finishedBoard 0 0 [] (Or.inl (by decide))

/-- C5: `reveal` fails and mutates nothing whenever the game is not
PLAYING, the coordinates are out of bounds, or the target cell is
FLAGGED or already REVEALED. -/
theorem claim_C5 : ∀ (b : Board) (row col : Nat) (sample : List (Nat × Nat)),
    (b.game_state ≠ GameState.PLAYING ∨ ¬(row < b.rows ∧ col < b.cols) ∨
      (getCellD b.grid row col).state = CellState.FLAGGED ∨
      (getCellD b.grid row col).state = CellState.REVEALED) →
    reveal b row col sample = (b, false) := by
  intro b row col sample h
  by_cases h1 : b.game_state = GameState.PLAYING
  · by_cases h2 : row < b.rows ∧ col < b.cols
    · by_cases h3 : (getCellD b.grid row col).state = CellState.FLAGGED
      · exact reveal_flagged h1 h2 h3
      · by_cases h4 : (getCellD b.grid row col).state = CellState.REVEALED
        · exact reveal_revealed h1 h2 h4
        · rcases h with h | h | h | h <;> first
            | exact absurd h1 h
            | exact absurd h2 (fun hh => h hh)
            | exact absurd h h3
            | exact absurd h h4
    · exact reveal_oob h1 h2
  · exact reveal_not_playing h1

/-- C5 witness: reveal on out-of-bounds coordinates of a concrete board
fails without mutation. -/
theorem claim_C5_witness : reveal (mkBoard 2 2 1) 5 5 [] = (mkBoard 2 2 1, false) :=
  claim_C5 (mkBoard 2 2 1) 5 5 [] (Or.inr (Or.inl (by decide)))

/-- C7: the recursive flood reveal terminates on every finite board:
every fuel bound larger than the number of HIDDEN cells computes the
same result (each cell leaves HIDDEN before its neighbours are visited,
so the recursion depth never exceeds the hidden-cell count). -/
theorem claim_C7 : ∀ (b : Board) (row col fuel : Nat), hiddenCount b < fuel →
    revealCellFuel fuel b row col = revealCell b row col :=
  fun b row col fuel h =>
    revealCellFuel_congr fuel b row col (hiddenCount b + 1) h (Nat.lt_succ_self _)

/-- C7 witness: on a concrete 2-by-2 board, a large fuel computes
exactly the canonical reveal. -/
theorem claim_C7_witness :
    hiddenCount (mkBoard 2 2 1) < 9 ∧
      revealCellFuel 9 (mkBoard 2 2 1) 0 0 = revealCell (mkBoard 2 2 1) 0 0 :=
  ⟨by decide, claim_C7 (mkBoard 2 2 1) 0 0 9 (by decide)⟩

/-- C8: loading the pattern "*.\n.." produces a 2-by-2 PLAYING board
with one mine at (0,0), adjacency count 1 at the three safe cells,
`first_move` cleared and both counters zero. -/
theorem claim_C8 :
    patternBoard.rows = 2 ∧ patternBoard.cols = 2 ∧ patternBoard.total_mines = 1 ∧
    (getCellD patternBoard.grid 0 0).is_mine = true ∧
    (getCellD patternBoard.grid 0 1).is_mine = false ∧
    (getCellD patternBoard.grid 1 0).is_mine = false ∧
    (getCellD patternBoard.grid 1 1).is_mine = false ∧
    (getCellD patternBoard.grid 0 1).adjacent_mines = 1 ∧
    (getCellD patternBoard.grid 1 0).adjacent_mines = 1 ∧
    (getCellD patternBoard.grid 1 1).adjacent_mines = 1 ∧
    patternBoard.game_state = GameState.PLAYING ∧
    patternBoard.first_move = false ∧
    patternBoard.flags_placed = 0 ∧
    patternBoard.cells_revealed = 0 := by
  decide

/-- C10: a single-cell reveal of a non-mine cell on an
adjacency-consistent board returns success, never changes `game_state`
(so never sets LOST) and never touches a mine cell: the cascade only
recurses from zero-adjacency cells, all of whose neighbours are safe.
Consequently the public `reveal` of a hidden non-mine cell (once mines
are placed) returns success. -/
theorem claim_C10 : ∀ (b : Board) (row col : Nat) (sample : List (Nat × Nat)), WF b →
    AdjConsistent b →
    (∀ cell, getCell b.grid row col = some cell → cell.is_mine = false) →
    (revealCell b row col).2 = true ∧
    (revealCell b row col).1.game_state = b.game_state ∧
    (∀ r c x, getCell b.grid r c = some x → x.is_mine = true →
      getCell (revealCell b row col).1.grid r c = some x) ∧
    (b.game_state = GameState.PLAYING → row < b.rows → col < b.cols →
      (getCellD b.grid row col).state = CellState.HIDDEN → b.first_move = false →
      (reveal b row col sample).2 = true) := by
  intro b row col sample hwf hadj hnm
  obtain ⟨hsnd, hgs, hmines⟩ := revealCellFuel_safe _ b row col hwf hadj hnm
  refine ⟨hsnd, hgs, hmines, ?_⟩
  intro hpl hr hc hhid hfm
  have hb1 : (if b.first_move = true then { place_mines b sample with first_move := false }
      else b) = b := by
    rw [hfm]
    simp
  rw [reveal_go hpl ⟨hr, hc⟩ (by rw [hhid]; simp) (by rw [hhid]; simp)]
  simp only [hb1]
  split
  · exact hsnd
  · exact hsnd

/-- C10 witness: revealing the safe cell (0,1) on the concrete pattern
board succeeds, keeps the game PLAYING, and leaves the mine untouched. -/
theorem claim_C10_witness :
    (revealCell patternBoard 0 1).2 = true ∧
      (revealCell patternBoard 0 1).1.game_state = patternBoard.game_state ∧
      (∀ r c x, getCell patternBoard.grid r c = some x → x.is_mine = true →
        getCell (revealCell patternBoard 0 1).1.grid r c = some x) ∧
      (patternBoard.game_state = GameState.PLAYING → 0 < patternBoard.rows →
        1 < patternBoard.cols →
        (getCellD patternBoard.grid 0 1).state = CellState.HIDDEN →
        patternBoard.first_move = false → (reveal patternBoard 0 1 []).2 = true) :=
  claim_C10 patternBoard 0 1 [] (by decide)
    (AdjConsistent.of_check (by decide) (by decide))
    (by decide)

/-- C9: on a PLAYING board, flagging an in-bounds non-REVEALED cell
succeeds and toggles it (HIDDEN to FLAGGED incrementing `flags_placed`,
FLAGGED to HIDDEN decrementing it), and flagging the same cell twice
returns the cell to its original state and restores the original
`flags_placed`. -/
theorem claim_C9 : ∀ (b : Board) (row col : Nat), WF b →
    b.game_state = GameState.PLAYING → row < b.rows → col < b.cols →
    (getCellD b.grid row col).state ≠ CellState.REVEALED →
    (flag b row col).2 = true ∧
    ((getCellD b.grid row col).state = CellState.HIDDEN →
      (getCellD (flag b row col).1.grid row col).state = CellState.FLAGGED ∧
      (flag b row col).1.flags_placed = b.flags_placed + 1) ∧
    ((getCellD b.grid row col).state = CellState.FLAGGED →
      (getCellD (flag b row col).1.grid row col).state = CellState.HIDDEN ∧
      (flag b row col).1.flags_placed = b.flags_placed - 1) ∧
    ((getCellD (flag (flag b row col).1 row col).1.grid row col).state =
        (getCellD b.grid row col).state ∧
      (flag (flag b row col).1 row col).1.flags_placed = b.flags_placed) := by
  intro b row col hwf hgs hr hc hnr
  obtain ⟨cell, hcell⟩ := hwf.getCell_isSome hr hc
  by_cases hf : (getCellD b.grid row col).state = CellState.FLAGGED
  · -- FLAGGED → HIDDEN, then HIDDEN → FLAGGED
    have heq := flag_unflag hgs ⟨hr, hc⟩ hf
    have hget1 : getCell (flag b row col).1.grid row col =
        some { getCellD b.grid row col with state := CellState.HIDDEN } := by
      rw [heq]
      exact getCell_setCellG_self _ hcell
    have hcd1 : getCellD (flag b row col).1.grid row col =
        { getCellD b.grid row col with state := CellState.HIDDEN } := getCellD_eq hget1
    have hgs1 : (flag b row col).1.game_state = GameState.PLAYING := by rw [heq]; exact hgs
    have hb1 : row < (flag b row col).1.rows ∧ col < (flag b row col).1.cols := by
      rw [heq]; exact ⟨hr, hc⟩
    have hnr1 : (getCellD (flag b row col).1.grid row col).state ≠ CellState.REVEALED := by
      rw [hcd1]; simp
    have hnf1 : (getCellD (flag b row col).1.grid row col).state ≠ CellState.FLAGGED := by
      rw [hcd1]; simp
    have heq2 := flag_set hgs1 hb1 hnr1 hnf1
    have hfl1 : (flag b row col).1.flags_placed = b.flags_placed - 1 := by rw [heq]
    have hget2 : getCell (flag (flag b row col).1 row col).1.grid row col =
        some { getCellD (flag b row col).1.grid row col with state := CellState.FLAGGED } := by
      rw [heq2]
      exact getCell_setCellG_self _ hget1
    refine ⟨by rw [heq], ?_, ?_, ?_, ?_⟩
    · intro hh
      rw [hf] at hh
      cases hh
    · intro _
      exact ⟨by rw [hcd1], by rw [heq]⟩
    · rw [getCellD_eq hget2, hf]
    · have : (flag (flag b row col).1 row col).1.flags_placed =
          (flag b row col).1.flags_placed + 1 := by rw [heq2]
      rw [this, hfl1]
      omega
  · -- HIDDEN → FLAGGED, then FLAGGED → HIDDEN
    have hhid : (getCellD b.grid row col).state = CellState.HIDDEN := by
      cases hst : (getCellD b.grid row col).state
      · rfl
      · exact absurd hst hnr
      · exact absurd hst hf
    have heq := flag_set hgs ⟨hr, hc⟩ hnr hf
    have hget1 : getCell (flag b row col).1.grid row col =
        some { getCellD b.grid row col with state := CellState.FLAGGED } := by
      rw [heq]
      exact getCell_setCellG_self _ hcell
    have hcd1 : getCellD (flag b row col).1.grid row col =
        { getCellD b.grid row col with state := CellState.FLAGGED } := getCellD_eq hget1
    have hgs1 : (flag b row col).1.game_state = GameState.PLAYING := by rw [heq]; exact hgs
    have hb1 : row < (flag b row col).1.rows ∧ col < (flag b row col).1.cols := by
      rw [heq]; exact ⟨hr, hc⟩
    have hf1 : (getCellD (flag b row col).1.grid row col).state = CellState.FLAGGED := by
      rw [hcd1]
    have heq2 := flag_unflag hgs1 hb1 hf1
    have hfl1 : (flag b row col).1.flags_placed = b.flags_placed + 1 := by rw [heq]
    have hget2 : getCell (flag (flag b row col).1 row col).1.grid row col =
        some { getCellD (flag b row col).1.grid row col with state := CellState.HIDDEN } := by
      rw [heq2]
      exact getCell_setCellG_self _ hget1
    refine ⟨by rw [heq], ?_, ?_, ?_, ?_⟩
    · intro _
      exact ⟨by rw [hcd1], by rw [heq]⟩
    · intro hh
      rw [hhid] at hh
      cases hh
    · rw [getCellD_eq hget2, hhid]
    · have : (flag (flag b row col).1 row col).1.flags_placed =
          (flag b row col).1.flags_placed - 1 := by rw [heq2]
      rw [this, hfl1]
      omega

/-- C9 witness: flagging cell (0,0) on a fresh 2-by-2 board toggles and
double-flagging restores cell state and counter. -/
theorem claim_C9_witness :
    (flag (mkBoard 2 2 1) 0 0).2 = true ∧
    ((getCellD (mkBoard 2 2 1).grid 0 0).state = CellState.HIDDEN →
      (getCellD (flag (mkBoard 2 2 1) 0 0).1.grid 0 0).state = CellState.FLAGGED ∧
      (flag (mkBoard 2 2 1) 0 0).1.flags_placed = (mkBoard 2 2 1).flags_placed + 1) ∧
    ((getCellD (mkBoard 2 2 1).grid 0 0).state = CellState.FLAGGED →
      (getCellD (flag (mkBoard 2 2 1) 0 0).1.grid 0 0).state = CellState.HIDDEN ∧
      (flag (mkBoard 2 2 1) 0 0).1.flags_placed = (mkBoard 2 2 1).flags_placed - 1) ∧
    ((getCellD (flag (flag (mkBoard 2 2 1) 0 0).1 0 0).1.grid 0 0).state =
        (getCellD (mkBoard 2 2 1).grid 0 0).state ∧
      (flag (flag (mkBoard 2 2 1) 0 0).1 0 0).1.flags_placed =
        (mkBoard 2 2 1).flags_placed) :=
  claim_C9 (mkBoard 2 2 1) 0 0 (by decide) (by decide) (by decide) (by decide) (by decide)

/-! ### The full-board scan and the WON transition -/

theorem are_all_safe_iff (b : Board) : are_all_safe_cells_revealed b = true ↔
    (∀ r, r < b.rows → ∀ c, c < b.cols →
      (getCellD b.grid r c).is_mine = true ∨
        (getCellD b.grid r c).state = CellState.REVEALED) := by
  unfold are_all_safe_cells_revealed
  simp [List.all_eq_true, List.mem_range]

theorem ram_scan_true {b : Board} (h : are_all_safe_cells_revealed b = true) :
    are_all_safe_cells_revealed (reveal_all_mines b) = true := by
  rw [are_all_safe_iff] at h ⊢
  intro r hr c hc
  have hchar := reveal_all_mines_getCell b r c
  rw [if_pos ⟨hr, hc⟩] at hchar
  have hb := h r hr c hc
  unfold getCellD at hb ⊢
  rw [hchar]
  cases hcell : getCell b.grid r c with
  | none =>
    rw [hcell] at hb
    rcases hb with hb | hb <;> simp [Cell.init] at hb
  | some cell =>
    rw [hcell] at hb
    simp only [Option.getD_some] at hb
    by_cases hm : cell.is_mine
    · left
      simp [hm]
    · right
      simp [hm]
      rcases hb with hb | hb
      · exact absurd hb hm
      · exact hb

theorem ram_mine_state {b : Board} {r c : Nat} {x : Cell} (hr : r < b.rows) (hc : c < b.cols)
    (hx : getCell (reveal_all_mines b).grid r c = some x) (hm : x.is_mine = true) :
    x.state = CellState.REVEALED := by
  have hchar := reveal_all_mines_getCell b r c
  rw [if_pos ⟨hr, hc⟩] at hchar
  rw [hchar] at hx
  cases hcell : getCell b.grid r c with
  | none => rw [hcell] at hx; cases hx
  | some cell =>
    rw [hcell] at hx
    have hx2 : (if cell.is_mine = true then { cell with state := CellState.REVEALED }
        else cell) = x := by
      simpa using hx
    by_cases hcm : cell.is_mine
    · rw [← hx2]
      simp [hcm]
    · rw [← hx2] at hm
      simp [hcm] at hm

/-- `reveal` on the success path, with the intermediate board made
explicit. -/
theorem reveal_go' {b : Board} {row col : Nat} {sample : List (Nat × Nat)}
    (hgs : b.game_state = GameState.PLAYING) (hb : row < b.rows ∧ col < b.cols)
    (hf : (getCellD b.grid row col).state ≠ CellState.FLAGGED)
    (hr : (getCellD b.grid row col).state ≠ CellState.REVEALED) (b1 : Board)
    (hb1 : b1 = if b.first_move = true then { place_mines b sample with first_move := false }
      else b) :
    reveal b row col sample =
      (if (revealCell b1 row col).2 && are_all_safe_cells_revealed (revealCell b1 row col).1
       then (reveal_all_mines { (revealCell b1 row col).1 with game_state := .WON },
         (revealCell b1 row col).2)
       else revealCell b1 row col) := by
  subst hb1
  rw [reveal_go hgs hb hf hr]

/-- `chord_reveal` on the success path, with the loop result made
explicit. -/
theorem chord_go' {b : Board} {row col : Nat}
    (hgs : b.game_state = GameState.PLAYING) (hb : row < b.rows ∧ col < b.cols)
    (hr : (getCellD b.grid row col).state = CellState.REVEALED)
    (hm : (getCellD b.grid row col).is_mine = false)
    (hfc : (get_neighbors b.rows b.cols row col).countP
        (fun p => decide ((getCellD b.grid p.1 p.2).state = CellState.FLAGGED)) =
      (getCellD b.grid row col).adjacent_mines) :
    chord_reveal b row col =
      (if (chordLoop b (get_neighbors b.rows b.cols row col)).2 &&
          are_all_safe_cells_revealed (chordLoop b (get_neighbors b.rows b.cols row col)).1
       then (reveal_all_mines
           { (chordLoop b (get_neighbors b.rows b.cols row col)).1 with game_state := .WON },
         (chordLoop b (get_neighbors b.rows b.cols row col)).2)
       else chordLoop b (get_neighbors b.rows b.cols row col)) := by
  rw [chord_go hgs hb hr hm hfc]

/-- C1: whenever a `reveal` or a `chord_reveal` returns success (no mine
hit), the resulting `game_state` is WON exactly when the full board scan
finds every non-mine cell REVEALED, and on WON every mine cell ends up
REVEALED. -/
theorem claim_C1 : ∀ (b b' : Board) (row col : Nat) (sample : List (Nat × Nat)),
    (reveal b row col sample = (b', true) ∨ chord_reveal b row col = (b', true)) →
    ((b'.game_state = GameState.WON ↔ are_all_safe_cells_revealed b' = true) ∧
     (b'.game_state = GameState.WON → ∀ r c x, r < b'.rows → c < b'.cols →
        getCell b'.grid r c = some x → x.is_mine = true → x.state = CellState.REVEALED)) := by
  intro b b' row col sample h
  rcases h with h | h
  · -- reveal
    have hgs : b.game_state = GameState.PLAYING := by
      by_contra hh
      rw [reveal_not_playing hh] at h
      exact absurd (congrArg Prod.snd h) (by simp)
    have hbnd : row < b.rows ∧ col < b.cols := by
      by_contra hh
      rw [reveal_oob hgs hh] at h
      exact absurd (congrArg Prod.snd h) (by simp)
    have hnf : (getCellD b.grid row col).state ≠ CellState.FLAGGED := by
      intro hh
      rw [reveal_flagged hgs hbnd hh] at h
      exact absurd (congrArg Prod.snd h) (by simp)
    have hnrv : (getCellD b.grid row col).state ≠ CellState.REVEALED := by
      intro hh
      rw [reveal_revealed hgs hbnd hh] at h
      exact absurd (congrArg Prod.snd h) (by simp)
    rw [reveal_go' hgs hbnd hnf hnrv
      (if b.first_move = true then { place_mines b sample with first_move := false } else b)
      rfl] at h
    set b1 := (if b.first_move = true then { place_mines b sample with first_move := false }
      else b) with hb1def
    have hb1gs : b1.game_state = b.game_state := by
      rw [hb1def]
      by_cases hfm : b.first_move = true
      · rw [if_pos hfm]
        rfl
      · rw [if_neg hfm]
    by_cases hwin : ((revealCell b1 row col).2 &&
        are_all_safe_cells_revealed (revealCell b1 row col).1) = true
    · rw [if_pos hwin] at h
      have hb' : b' = reveal_all_mines
          { (revealCell b1 row col).1 with game_state := .WON } :=
        (congrArg Prod.fst h).symm
      have hscan : are_all_safe_cells_revealed (revealCell b1 row col).1 = true :=
        (Bool.and_eq_true _ _ ▸ hwin).2
      have hgsW : b'.game_state = GameState.WON := by rw [hb']; rfl
      constructor
      · rw [hgsW]
        simp only [true_iff]
        rw [hb']
        exact ram_scan_true hscan
      · intro _ r c x hrb hcb hx hxm
        rw [hb'] at hx
        have hrb' : r < ({ (revealCell b1 row col).1 with
            game_state := GameState.WON } : Board).rows := by
          rw [hb'] at hrb
          exact hrb
        have hcb' : c < ({ (revealCell b1 row col).1 with
            game_state := GameState.WON } : Board).cols := by
          rw [hb'] at hcb
          exact hcb
        exact ram_mine_state hrb' hcb' hx hxm
    · rw [if_neg hwin] at h
      have hsucc : (revealCell b1 row col).2 = true := congrArg Prod.snd h
      have hscan : are_all_safe_cells_revealed (revealCell b1 row col).1 = false := by
        cases hsc : are_all_safe_cells_revealed (revealCell b1 row col).1
        · rfl
        · exact absurd (by rw [hsucc, hsc]; rfl) hwin
      have hb' : b' = (revealCell b1 row col).1 := (congrArg Prod.fst h).symm
      have hstep := revealCell_stepR b1 row col
      have hnw : b'.game_state ≠ GameState.WON := by
        rw [hb']
        rcases hstep.gs with hg | hg <;> rw [hg]
        · rw [hb1gs, hgs]
          simp
        · simp
      constructor
      · constructor
        · intro hh
          exact absurd hh hnw
        · intro hh
          rw [hb'] at hh
          rw [hh] at hscan
          cases hscan
      · intro hh
        exact absurd hh hnw
  · -- chord_reveal
    have hgs : b.game_state = GameState.PLAYING := by
      by_contra hh
      rw [chord_not_playing hh] at h
      exact absurd (congrArg Prod.snd h) (by simp)
    have hbnd : row < b.rows ∧ col < b.cols := by
      by_contra hh
      rw [chord_oob hgs hh] at h
      exact absurd (congrArg Prod.snd h) (by simp)
    have hrv : (getCellD b.grid row col).state = CellState.REVEALED := by
      by_contra hh
      rw [chord_not_revealed hgs hbnd hh] at h
      exact absurd (congrArg Prod.snd h) (by simp)
    have hnm : (getCellD b.grid row col).is_mine = false := by
      cases hmm : (getCellD b.grid row col).is_mine
      · rfl
      · rw [chord_mine hgs hbnd hrv hmm] at h
        exact absurd (congrArg Prod.snd h) (by simp)
    have hfc : (get_neighbors b.rows b.cols row col).countP
        (fun p => decide ((getCellD b.grid p.1 p.2).state = CellState.FLAGGED)) =
        (getCellD b.grid row col).adjacent_mines := by
      by_contra hh
      rw [chord_badflags hgs hbnd hrv hnm hh] at h
      exact absurd (congrArg Prod.snd h) (by simp)
    rw [chord_go' hgs hbnd hrv hnm hfc] at h
    by_cases hwin : ((chordLoop b (get_neighbors b.rows b.cols row col)).2 &&
        are_all_safe_cells_revealed
          (chordLoop b (get_neighbors b.rows b.cols row col)).1) = true
    · rw [if_pos hwin] at h
      have hb' : b' = reveal_all_mines
          { (chordLoop b (get_neighbors b.rows b.cols row col)).1 with game_state := .WON } :=
        (congrArg Prod.fst h).symm
      have hscan : are_all_safe_cells_revealed
          (chordLoop b (get_neighbors b.rows b.cols row col)).1 = true :=
        (Bool.and_eq_true _ _ ▸ hwin).2
      have hgsW : b'.game_state = GameState.WON := by rw [hb']; rfl
      constructor
      · rw [hgsW]
        simp only [true_iff]
        rw [hb']
        exact ram_scan_true hscan
      · intro _ r c x hrb hcb hx hxm
        rw [hb'] at hx
        have hrb' : r < ({ (chordLoop b (get_neighbors b.rows b.cols row col)).1 with
            game_state := GameState.WON } : Board).rows := by
          rw [hb'] at hrb
          exact hrb
        have hcb' : c < ({ (chordLoop b (get_neighbors b.rows b.cols row col)).1 with
            game_state := GameState.WON } : Board).cols := by
          rw [hb'] at hcb
          exact hcb
        exact ram_mine_state hrb' hcb' hx hxm
    · rw [if_neg hwin] at h
      have hsucc : (chordLoop b (get_neighbors b.rows b.cols row col)).2 = true :=
        congrArg Prod.snd h
      have hscan : are_all_safe_cells_revealed
          (chordLoop b (get_neighbors b.rows b.cols row col)).1 = false := by
        cases hsc : are_all_safe_cells_revealed
          (chordLoop b (get_neighbors b.rows b.cols row col)).1
        · rfl
        · exact absurd (by rw [hsucc, hsc]; rfl) hwin
      have hb' : b' = (chordLoop b (get_neighbors b.rows b.cols row col)).1 :=
        (congrArg Prod.fst h).symm
      have hstep := chordLoop_stepR (get_neighbors b.rows b.cols row col) b
      have hnw : b'.game_state ≠ GameState.WON := by
        rw [hb']
        rcases hstep.gs with hg | hg <;> rw [hg]
        · rw [hgs]
          simp
        · simp
      constructor
      · constructor
        · intro hh
          exact absurd hh hnw
        · intro hh
          rw [hb'] at hh
          rw [hh] at hscan
          cases hscan
      · intro hh
        exact absurd hh hnw

/-- C1 witness: a concrete winning reveal on the pattern board sets WON
in agreement with the scan, and the mine ends up revealed. -/
theorem claim_C1_witness :
    ((wonBoard.game_state = GameState.WON ↔
        are_all_safe_cells_revealed wonBoard = true) ∧
     (wonBoard.game_state = GameState.WON → ∀ r c x, r < wonBoard.rows →
        c < wonBoard.cols → getCell wonBoard.grid r c = some x → x.is_mine = true →
        x.state = CellState.REVEALED)) :=
  claim_C1 (reveal (reveal (flag patternBoard 0 0).1 0 1 []).1 1 0 []).1 wonBoard 1 1 []
    (Or.inl (by decide))

/-! ### Chord reveal behaviour -/

theorem revealCell_target_revealed {b : Board} {row col : Nat} {cell : Cell}
    (hcell : getCell b.grid row col = some cell) (hh : cell.state = CellState.HIDDEN) :
    ∃ y, getCell (revealCell b row col).1.grid row col = some y ∧
      y.state = CellState.REVEALED := by
  show ∃ y, getCell (revealCellFuel (hiddenCount b + 1) b row col).1.grid row col = some y ∧
    y.state = CellState.REVEALED
  by_cases hm : cell.is_mine
  · rw [revealCellFuel_case_mine hcell hh hm]
    exact ⟨_, getCell_setCellG_self _ hcell, rfl⟩
  · have hm' : cell.is_mine = false := by simpa using hm
    by_cases ha : cell.adjacent_mines = 0
    · rw [revealCellFuel_case_cascade hcell hh hm' ha]
      have hb1 : getCell
          (setCellG b.grid row col { cell with state := CellState.REVEALED }) row col =
          some { cell with state := CellState.REVEALED } := getCell_setCellG_self _ hcell
      have hstep := revealLoop_stepR (fun b' r' c' => revealCellFuel (hiddenCount b) b' r' c')
        (fun b' r' c' => revealCellFuel_stepR (hiddenCount b) b' r' c')
        (get_neighbors b.rows b.cols row col)
        { b with grid := setCellG b.grid row col { cell with state := .REVEALED },
                 cells_revealed := b.cells_revealed + 1 }
      obtain ⟨y, hy, hys, _, _⟩ := hstep.revealed_stable hb1 rfl
      exact ⟨y, hy, hys⟩
    · rw [revealCellFuel_case_plain hcell hh hm' ha]
      exact ⟨_, getCell_setCellG_self _ hcell, rfl⟩

theorem revealCell_mine_hit {b : Board} {row col : Nat} {cell : Cell}
    (hcell : getCell b.grid row col = some cell) (hh : cell.state = CellState.HIDDEN)
    (hm : cell.is_mine = true) :
    (revealCell b row col).2 = false ∧
      (revealCell b row col).1.game_state = GameState.LOST := by
  show (revealCellFuel (hiddenCount b + 1) b row col).2 = false ∧
    (revealCellFuel (hiddenCount b + 1) b row col).1.game_state = GameState.LOST
  rw [revealCellFuel_case_mine hcell hh hm]
  exact ⟨rfl, rfl⟩

/-- A convenient bundling of `revealCellFuel_safe` at full fuel. -/
theorem revealCell_safe {b : Board} {row col : Nat} (hwf : WF b) (hadj : AdjConsistent b)
    (hnm : ∀ cell, getCell b.grid row col = some cell → cell.is_mine = false) :
    (revealCell b row col).2 = true ∧
    (revealCell b row col).1.game_state = b.game_state ∧
    (∀ r c x, getCell b.grid r c = some x → x.is_mine = true →
      getCell (revealCell b row col).1.grid r c = some x) :=
  revealCellFuel_safe _ b row col hwf hadj hnm

/-- The chord loop when no neighbour that is still hidden holds a mine:
it succeeds and every neighbour that was hidden at loop start ends up
revealed. -/
theorem chordLoop_safe : ∀ (ps : List (Nat × Nat)) (b : Board), WF b → AdjConsistent b →
    (∀ p ∈ ps, p.1 < b.rows ∧ p.2 < b.cols) →
    (∀ p ∈ ps, ∀ x, getCell b.grid p.1 p.2 = some x → x.state = CellState.HIDDEN →
      x.is_mine = false) →
    (chordLoop b ps).2 = true ∧
    (∀ p ∈ ps, ∀ x, getCell b.grid p.1 p.2 = some x → x.state = CellState.HIDDEN →
      ∃ y, getCell (chordLoop b ps).1.grid p.1 p.2 = some y ∧
        y.state = CellState.REVEALED) := by
  intro ps
  induction ps with
  | nil => exact fun b _ _ _ _ => ⟨rfl, fun p hp => absurd hp (List.not_mem_nil p)⟩
  | cons p ps ih =>
    intro b hwf hadj hbd hsafe
    rw [chordLoop_cons]
    by_cases hh : (getCellD b.grid p.1 p.2).state = CellState.HIDDEN
    · rw [if_pos hh]
      obtain ⟨pc, hpc⟩ := hwf.getCell_isSome (hbd p (List.mem_cons_self p ps)).1
        (hbd p (List.mem_cons_self p ps)).2
      have hpcd : getCellD b.grid p.1 p.2 = pc := getCellD_eq hpc
      have hpch : pc.state = CellState.HIDDEN := by rw [← hpcd]; exact hh
      have hpcm : pc.is_mine = false :=
        hsafe p (List.mem_cons_self p ps) pc hpc hpch
      have hnm : ∀ cell, getCell b.grid p.1 p.2 = some cell → cell.is_mine = false := by
        intro cell hc
        rw [hpc] at hc
        cases hc
        exact hpcm
      obtain ⟨hsucc, hgsp, hmines⟩ := revealCell_safe hwf hadj hnm
      rw [if_pos hsucc]
      have hstep := revealCell_stepR b p.1 p.2
      have hwf2 : WF (revealCell b p.1 p.2).1 := hstep.wf hwf
      have hadj2 : AdjConsistent (revealCell b p.1 p.2).1 := AdjConsistent.of_stepR hadj hstep
      have hbd2 : ∀ q ∈ ps, q.1 < (revealCell b p.1 p.2).1.rows ∧
          q.2 < (revealCell b p.1 p.2).1.cols := by
        intro q hq
        rw [hstep.rows_eq, hstep.cols_eq]
        exact hbd q (List.mem_cons_of_mem _ hq)
      have hsafe2 : ∀ q ∈ ps, ∀ x, getCell (revealCell b p.1 p.2).1.grid q.1 q.2 = some x →
          x.state = CellState.HIDDEN → x.is_mine = false := by
        intro q hq x hx hxs
        have hev := hstep.evolves q.1 q.2
        cases hq0 : getCell b.grid q.1 q.2 with
        | none => rw [hq0, hx] at hev; exact absurd hev (by simp [OptEvolves])
        | some x0 =>
          rw [hq0, hx] at hev
          obtain ⟨hme, _, hst⟩ := hev
          have hx0h : x0.state = CellState.HIDDEN := by
            rcases hst with hst | ⟨hst0, hst1⟩
            · rw [← hst]; exact hxs
            · exact hst0
          rw [hme]
          exact hsafe q (List.mem_cons_of_mem _ hq) x0 hq0 hx0h
      obtain ⟨hloop2, hrev2⟩ := ih (revealCell b p.1 p.2).1 hwf2 hadj2 hbd2 hsafe2
      have hlstep := chordLoop_stepR ps (revealCell b p.1 p.2).1
      refine ⟨hloop2, ?_⟩
      intro q hq x hx hxs
      rcases List.mem_cons.1 hq with hqp | hqtail
      · -- the processed cell itself: revealed by the call, stays revealed
        subst hqp
        obtain ⟨y, hy, hys⟩ := revealCell_target_revealed hpc hpch
        obtain ⟨z, hz, hzs, _, _⟩ := hlstep.revealed_stable hy hys
        exact ⟨z, hz, hzs⟩
      · -- a later neighbour: either still hidden (inductively revealed)
        -- or already revealed by the cascade (stays revealed)
        have hev := hstep.evolves q.1 q.2
        cases hq2 : getCell (revealCell b p.1 p.2).1.grid q.1 q.2 with
        | none => rw [hx, hq2] at hev; exact absurd hev (by simp [OptEvolves])
        | some x2 =>
          rw [hx, hq2] at hev
          obtain ⟨_, _, hst⟩ := hev
          rcases hst with hst | ⟨_, hst1⟩
          · have hx2h : x2.state = CellState.HIDDEN := by rw [hst]; exact hxs
            exact hrev2 q hqtail x2 hq2 hx2h
          · obtain ⟨z, hz, hzs, _, _⟩ := hlstep.revealed_stable hq2 hst1
            exact ⟨z, hz, hzs⟩
    · rw [if_neg hh]
      obtain ⟨hloop, hrev⟩ := ih b hwf hadj
        (fun q hq => hbd q (List.mem_cons_of_mem _ hq))
        (fun q hq => hsafe q (List.mem_cons_of_mem _ hq))
      refine ⟨hloop, ?_⟩
      intro q hq x hx hxs
      rcases List.mem_cons.1 hq with hqp | hqtail
      · subst hqp
        rw [getCellD_eq hx] at hh
        exact absurd hxs hh
      · exact hrev q hqtail x hx hxs

/-- The chord loop when some still-hidden neighbour holds a mine: the
loop stops at the first such mine with failure and the game is lost. -/
theorem chordLoop_mine_hit : ∀ (ps : List (Nat × Nat)) (b : Board), WF b →
    AdjConsistent b → (∀ p ∈ ps, p.1 < b.rows ∧ p.2 < b.cols) →
    (∃ q ∈ ps, ∃ x, getCell b.grid q.1 q.2 = some x ∧ x.state = CellState.HIDDEN ∧
      x.is_mine = true) →
    (chordLoop b ps).2 = false ∧ (chordLoop b ps).1.game_state = GameState.LOST := by
  intro ps
  induction ps with
  | nil =>
    intro b _ _ _ hex
    obtain ⟨q, hq, _⟩ := hex
    exact absurd hq (List.not_mem_nil q)
  | cons p ps ih =>
    intro b hwf hadj hbd hex
    rw [chordLoop_cons]
    by_cases hh : (getCellD b.grid p.1 p.2).state = CellState.HIDDEN
    · rw [if_pos hh]
      obtain ⟨pc, hpc⟩ := hwf.getCell_isSome (hbd p (List.mem_cons_self p ps)).1
        (hbd p (List.mem_cons_self p ps)).2
      have hpcd : getCellD b.grid p.1 p.2 = pc := getCellD_eq hpc
      have hpch : pc.state = CellState.HIDDEN := by rw [← hpcd]; exact hh
      by_cases hm : pc.is_mine
      · obtain ⟨hsf, hlost⟩ := revealCell_mine_hit hpc hpch hm
        rw [if_neg (by rw [hsf]; simp)]
        exact ⟨rfl, hlost⟩
      · have hnm : ∀ cell, getCell b.grid p.1 p.2 = some cell → cell.is_mine = false := by
          intro cell hc
          rw [hpc] at hc
          cases hc
          simpa using hm
        obtain ⟨hsucc, hgsp, hmines⟩ := revealCell_safe hwf hadj hnm
        rw [if_pos hsucc]
        have hstep := revealCell_stepR b p.1 p.2
        apply ih (revealCell b p.1 p.2).1 (hstep.wf hwf) (AdjConsistent.of_stepR hadj hstep)
        · intro q hq
          rw [hstep.rows_eq, hstep.cols_eq]
          exact hbd q (List.mem_cons_of_mem _ hq)
        · obtain ⟨q, hq, x, hx, hxs, hxm⟩ := hex
          rcases List.mem_cons.1 hq with hqp | hqtail
          · subst hqp
            rw [hpc] at hx
            cases hx
            rw [hxm] at hm
            exact absurd rfl hm
          · exact ⟨q, hqtail, x, hmines q.1 q.2 x hx hxm, hxs, hxm⟩
    · rw [if_neg hh]
      apply ih b hwf hadj (fun q hq => hbd q (List.mem_cons_of_mem _ hq))
      obtain ⟨q, hq, x, hx, hxs, hxm⟩ := hex
      rcases List.mem_cons.1 hq with hqp | hqtail
      · subst hqp
        rw [getCellD_eq hx] at hh
        exact absurd hxs hh
      · exact ⟨q, hqtail, x, hx, hxs, hxm⟩

theorem ram_revealed_stays {b : Board} {r c : Nat} {y : Cell} (hr : r < b.rows)
    (hc : c < b.cols) (hy : getCell b.grid r c = some y)
    (hys : y.state = CellState.REVEALED) :
    (getCellD (reveal_all_mines b).grid r c).state = CellState.REVEALED := by
  have hchar := reveal_all_mines_getCell b r c
  rw [if_pos ⟨hr, hc⟩, hy] at hchar
  unfold getCellD
  rw [hchar]
  by_cases hm : y.is_mine <;> simp [hm, hys]

/-- C6: `chord_reveal` on a revealed non-mine cell proceeds exactly when
the flagged-neighbour count equals the cell's `adjacent_mines`: on a
mismatch it fails and changes nothing; on a match it reveals every
HIDDEN neighbour (succeeding when no hidden neighbour is a mine, and
stopping with failure and a LOST game when one is). -/
theorem claim_C6 : ∀ (b : Board) (row col : Nat),
    b.game_state = GameState.PLAYING → row < b.rows → col < b.cols →
    (getCellD b.grid row col).state = CellState.REVEALED →
    (getCellD b.grid row col).is_mine = false →
    (((get_neighbors b.rows b.cols row col).countP
        (fun p => decide ((getCellD b.grid p.1 p.2).state = CellState.FLAGGED)) ≠
        (getCellD b.grid row col).adjacent_mines →
      chord_reveal b row col = (b, false)) ∧
     ((get_neighbors b.rows b.cols row col).countP
        (fun p => decide ((getCellD b.grid p.1 p.2).state = CellState.FLAGGED)) =
        (getCellD b.grid row col).adjacent_mines → WF b → AdjConsistent b →
      ((∀ p ∈ get_neighbors b.rows b.cols row col,
          (getCellD b.grid p.1 p.2).state = CellState.HIDDEN →
          (getCellD b.grid p.1 p.2).is_mine = false) →
        (chord_reveal b row col).2 = true ∧
        (∀ p ∈ get_neighbors b.rows b.cols row col,
          (getCellD b.grid p.1 p.2).state = CellState.HIDDEN →
          (getCellD (chord_reveal b row col).1.grid p.1 p.2).state =
            CellState.REVEALED)) ∧
      ((∃ p ∈ get_neighbors b.rows b.cols row col,
          (getCellD b.grid p.1 p.2).state = CellState.HIDDEN ∧
          (getCellD b.grid p.1 p.2).is_mine = true) →
        (chord_reveal b row col).2 = false ∧
        (chord_reveal b row col).1.game_state = GameState.LOST))) := by
  intro b row col hgs hr hc hrv hm
  constructor
  · intro hfc
    exact chord_badflags hgs ⟨hr, hc⟩ hrv hm hfc
  · intro hfc hwf hadj
    have hbd : ∀ p ∈ get_neighbors b.rows b.cols row col,
        p.1 < b.rows ∧ p.2 < b.cols := fun p hp => mem_get_neighbors hp
    have hC := chord_go' hgs ⟨hr, hc⟩ hrv hm hfc
    constructor
    · -- no hidden mine among the neighbours
      intro hsafeD
      have hsafe : ∀ p ∈ get_neighbors b.rows b.cols row col, ∀ x,
          getCell b.grid p.1 p.2 = some x → x.state = CellState.HIDDEN →
          x.is_mine = false := by
        intro p hp x hx hxs
        have hd := getCellD_eq hx
        have := hsafeD p hp (by rw [hd]; exact hxs)
        rw [hd] at this
        exact this
      obtain ⟨hloop, hrev⟩ := chordLoop_safe _ b hwf hadj hbd hsafe
      have hrows : (chordLoop b (get_neighbors b.rows b.cols row col)).1.rows = b.rows :=
        (chordLoop_stepR _ b).rows_eq
      have hcols : (chordLoop b (get_neighbors b.rows b.cols row col)).1.cols = b.cols :=
        (chordLoop_stepR _ b).cols_eq
      rw [hC]
      by_cases hwin : ((chordLoop b (get_neighbors b.rows b.cols row col)).2 &&
          are_all_safe_cells_revealed
            (chordLoop b (get_neighbors b.rows b.cols row col)).1) = true
      · rw [if_pos hwin]
        refine ⟨hloop, ?_⟩
        intro p hp hph
        obtain ⟨x, hx⟩ := hwf.getCell_isSome (hbd p hp).1 (hbd p hp).2
        have hxs : x.state = CellState.HIDDEN := by
          rw [getCellD_eq hx] at hph
          exact hph
        obtain ⟨y, hy, hys⟩ := hrev p hp x hx hxs
        have hrb : p.1 < ({ (chordLoop b (get_neighbors b.rows b.cols row col)).1 with
            game_state := GameState.WON } : Board).rows := by
          show p.1 < (chordLoop b (get_neighbors b.rows b.cols row col)).1.rows
          rw [hrows]
          exact (hbd p hp).1
        have hcb : p.2 < ({ (chordLoop b (get_neighbors b.rows b.cols row col)).1 with
            game_state := GameState.WON } : Board).cols := by
          show p.2 < (chordLoop b (get_neighbors b.rows b.cols row col)).1.cols
          rw [hcols]
          exact (hbd p hp).2
        exact ram_revealed_stays hrb hcb hy hys
      · rw [if_neg hwin]
        refine ⟨hloop, ?_⟩
        intro p hp hph
        obtain ⟨x, hx⟩ := hwf.getCell_isSome (hbd p hp).1 (hbd p hp).2
        have hxs : x.state = CellState.HIDDEN := by
          rw [getCellD_eq hx] at hph
          exact hph
        obtain ⟨y, hy, hys⟩ := hrev p hp x hx hxs
        rw [getCellD_eq hy]
        exact hys
    · -- some hidden neighbour is a mine
      intro hexD
      have hex : ∃ q ∈ get_neighbors b.rows b.cols row col, ∃ x,
          getCell b.grid q.1 q.2 = some x ∧ x.state = CellState.HIDDEN ∧
          x.is_mine = true := by
        obtain ⟨q, hq, hqs, hqm⟩ := hexD
        obtain ⟨x, hx⟩ := hwf.getCell_isSome (hbd q hq).1 (hbd q hq).2
        have hd := getCellD_eq hx
        rw [hd] at hqs hqm
        exact ⟨q, hq, x, hx, hqs, hqm⟩
      obtain ⟨hsf, hlost⟩ := chordLoop_mine_hit _ b hwf hadj hbd hex
      rw [hC, if_neg (by rw [hsf]; simp)]
      exact ⟨hsf, hlost⟩

/-- C6 witness: on the pattern board with cell (1,1) revealed and the
mine flagged, chording (1,1) matches the flag count, succeeds, and
reveals the two hidden safe neighbours. -/
theorem claim_C6_witness :
    (((get_neighbors chordBoard.rows chordBoard.cols 1 1).countP
        (fun p => decide ((getCellD chordBoard.grid p.1 p.2).state = CellState.FLAGGED)) ≠
        (getCellD chordBoard.grid 1 1).adjacent_mines →
      chord_reveal chordBoard 1 1 = (chordBoard, false)) ∧
     ((get_neighbors chordBoard.rows chordBoard.cols 1 1).countP
        (fun p => decide ((getCellD chordBoard.grid p.1 p.2).state = CellState.FLAGGED)) =
        (getCellD chordBoard.grid 1 1).adjacent_mines → WF chordBoard →
      AdjConsistent chordBoard →
      ((∀ p ∈ get_neighbors chordBoard.rows chordBoard.cols 1 1,
          (getCellD chordBoard.grid p.1 p.2).state = CellState.HIDDEN →
          (getCellD chordBoard.grid p.1 p.2).is_mine = false) →
        (chord_reveal chordBoard 1 1).2 = true ∧
        (∀ p ∈ get_neighbors chordBoard.rows chordBoard.cols 1 1,
          (getCellD chordBoard.grid p.1 p.2).state = CellState.HIDDEN →
          (getCellD (chord_reveal chordBoard 1 1).1.grid p.1 p.2).state =
            CellState.REVEALED)) ∧
      ((∃ p ∈ get_neighbors chordBoard.rows chordBoard.cols 1 1,
          (getCellD chordBoard.grid p.1 p.2).state = CellState.HIDDEN ∧
          (getCellD chordBoard.grid p.1 p.2).is_mine = true) →
        (chord_reveal chordBoard 1 1).2 = false ∧
        (chord_reveal chordBoard 1 1).1.game_state = GameState.LOST))) :=
  claim_C6 chordBoard 1 1 (by decide) (by decide) (by decide) (by decide) (by decide)

/-! ### Mine placement support -/

theorem mem_available_positions {b : Board} {er ec : Nat} {p : Nat × Nat} :
    p ∈ available_positions b er ec ↔
      p.1 < b.rows ∧ p.2 < b.cols ∧ p ∉ exclude_positions b er ec := by
  unfold available_positions
  rcases p with ⟨r, c⟩
  simp only [List.mem_flatMap, List.mem_filterMap, List.mem_range]
  constructor
  · rintro ⟨a, ha, cc, hcc, hsome⟩
    split at hsome
    · cases hsome
    · rename_i hnot
      cases hsome
      exact ⟨ha, hcc, hnot⟩
  · rintro ⟨hr, hcc, hne⟩
    refine ⟨r, hr, c, hcc, ?_⟩
    rw [if_neg hne]

theorem countCells_congr {P : Cell → Bool} {g g' : List (List Cell)}
    (hs : sameShape g g')
    (hpt : ∀ r c x y, getCell g r c = some x → getCell g' r c = some y → P y = P x) :
    countCells P g' = countCells P g := by
  unfold countCells
  have hmap : g'.map (fun row => row.countP P) = g.map (fun row => row.countP P) := by
    apply List.ext_getElem?
    intro i
    cases hrow : g[i]? with
    | none =>
      have hlen : g.length ≤ i := by
        by_contra hh
        rw [List.getElem?_eq_getElem (by omega)] at hrow
        cases hrow
      have h1 : (g'.map (fun row => row.countP P)).length ≤ i := by
        rw [List.length_map, hs.len]
        exact hlen
      have h2 : (g.map (fun row => row.countP P)).length ≤ i := by
        rw [List.length_map]
        exact hlen
      rw [List.getElem?_eq_none h1, List.getElem?_eq_none h2]
    | some row =>
      have hlen : i < g.length := by
        by_contra hh
        rw [List.getElem?_eq_none (by omega)] at hrow
        cases hrow
      have hlen' : i < g'.length := by rw [hs.len]; exact hlen
      have hrow' : g'[i]? = some g'[i] := List.getElem?_eq_getElem hlen'
      rw [List.getElem?_map, List.getElem?_map, hrow, hrow']
      simp only [Option.map_some']
      congr 1
      apply list_countP_congr'
      · have := hs.rowlen i
        rw [hrow, hrow'] at this
        simpa using this
      · intro j x y hx hy
        exact hpt i j x y (getCell_some_iff.2 ⟨row, hrow, hx⟩)
          (getCell_some_iff.2 ⟨g'[i], hrow', hy⟩)
  rw [hmap]

theorem countCells_eq_zero_of {P : Cell → Bool} {g : List (List Cell)}
    (h : ∀ r c x, getCell g r c = some x → P x = false) : countCells P g = 0 := by
  unfold countCells
  rw [List.sum_eq_zero]
  intro n hn
  rcases List.mem_map.1 hn with ⟨row, hrow, rfl⟩
  rcases List.mem_iff_getElem.1 hrow with ⟨i, hi, rfl⟩
  rw [List.countP_eq_zero]
  intro x hx
  rcases List.mem_iff_getElem.1 hx with ⟨j, hj, rfl⟩
  have hcell : getCell g i j = some g[i][j] :=
    getCell_some_iff.2 ⟨g[i], List.getElem?_eq_getElem hi, List.getElem?_eq_getElem hj⟩
  rw [h i j _ hcell]
  simp

theorem mine_fold_count : ∀ (sample : List (Nat × Nat)) (g : List (List Cell)),
    sample.Nodup →
    (∀ p ∈ sample, ∃ x, getCell g p.1 p.2 = some x ∧ x.is_mine = false) →
    countCells (fun cell => cell.is_mine) (sample.foldl mineBody g) =
      countCells (fun cell => cell.is_mine) g + sample.length := by
  intro sample
  induction sample with
  | nil => intro g _ _; rfl
  | cons p ps ih =>
    intro g hnd hex
    obtain ⟨hpnotmem, hndtail⟩ := List.nodup_cons.1 hnd
    obtain ⟨x, hx, hxm⟩ := hex p (List.mem_cons_self p ps)
    simp only [List.foldl_cons]
    have hstep : countCells (fun cell => cell.is_mine) (mineBody g p) =
        countCells (fun cell => cell.is_mine) g + 1 := by
      have h0 := countCells_setCellG (fun cell => cell.is_mine)
        { x with is_mine := true } hx
      simp [hxm] at h0
      show countCells (fun cell => cell.is_mine)
        (match getCell g p.1 p.2 with
          | some cell => setCellG g p.1 p.2 { cell with is_mine := true }
          | none => g) = _
      rw [hx]
      exact h0
    have hex2 : ∀ q ∈ ps, ∃ x, getCell (mineBody g p) q.1 q.2 = some x ∧
        x.is_mine = false := by
      intro q hq
      obtain ⟨y, hy, hym⟩ := hex q (List.mem_cons_of_mem _ hq)
      refine ⟨y, ?_, hym⟩
      rw [mineBody_local g p q.1 q.2]
      · exact hy
      · intro hh
        apply hpnotmem
        have : q = p := by
          rcases q with ⟨q1, q2⟩
          rcases p with ⟨p1, p2⟩
          simp only at hh
          rw [hh.1, hh.2]
        rw [← this]
        exact hq
    rw [ih (mineBody g p) hndtail hex2, hstep]
    simp [Nat.add_assoc, Nat.add_comm 1]

/-! ### `calculate_adjacent_mines` preserves mines and states -/

theorem cam_mine_stable (b : Board) (r c : Nat) :
    (getCell (calculate_adjacent_mines b).grid r c).map Cell.is_mine =
      (getCell b.grid r c).map Cell.is_mine := by
  rw [calculate_adjacent_mines_getCell]
  split
  · cases getCell b.grid r c with
    | none => rfl
    | some cell =>
      unfold adjAct
      by_cases hm : cell.is_mine <;> simp [hm]
  · rfl

theorem cam_state_stable (b : Board) (r c : Nat) :
    (getCell (calculate_adjacent_mines b).grid r c).map Cell.state =
      (getCell b.grid r c).map Cell.state := by
  rw [calculate_adjacent_mines_getCell]
  split
  · cases getCell b.grid r c with
    | none => rfl
    | some cell =>
      unfold adjAct
      by_cases hm : cell.is_mine <;> simp [hm]
  · rfl

theorem cam_wf {b : Board} (hwf : WF b) : WF (calculate_adjacent_mines b) :=
  WF_of_sameShape hwf (calculate_adjacent_mines_shape b) rfl rfl

theorem cam_adjConsistent {b : Board} (hwf : WF b) :
    AdjConsistent (calculate_adjacent_mines b) := by
  intro r c cell hcell hm
  have hb := (cam_wf hwf).getCell_bounds hcell
  have hchar := calculate_adjacent_mines_getCell b r c
  rw [if_pos ⟨hb.1, hb.2⟩] at hchar
  rw [hchar] at hcell
  cases hbc : getCell b.grid r c with
  | none => rw [hbc] at hcell; cases hcell
  | some bcell =>
    rw [hbc] at hcell
    simp only [Option.map_some'] at hcell
    have hcelleq : adjAct b.rows b.cols b.grid r c bcell = cell := Option.some.inj hcell
    have hbm : bcell.is_mine = false := by
      have : cell.is_mine = bcell.is_mine := by
        rw [← hcelleq]
        unfold adjAct
        by_cases hq : bcell.is_mine <;> simp [hq]
      rw [this] at hm
      exact hm
    have hadjcell : cell.adjacent_mines = countMineNeighbors b.rows b.cols b.grid r c := by
      rw [← hcelleq]
      unfold adjAct
      rw [hbm]
      simp
    rw [hadjcell]
    show countMineNeighbors b.rows b.cols b.grid r c =
      countMineNeighbors b.rows b.cols (calculate_adjacent_mines b).grid r c
    exact (countMineNeighbors_congr (fun r c => cam_mine_stable b r c) r c).symm

theorem ram_mine_stable (b : Board) (r c : Nat) :
    (getCell (reveal_all_mines b).grid r c).map Cell.is_mine =
      (getCell b.grid r c).map Cell.is_mine := by
  rw [reveal_all_mines_getCell]
  split
  · cases getCell b.grid r c with
    | none => rfl
    | some cell =>
      by_cases hm : cell.is_mine <;> simp [hm]
  · rfl

theorem ram_minecnt (b : Board) : mineCount (reveal_all_mines b) = mineCount b := by
  unfold mineCount
  apply countCells_congr (reveal_all_mines_shape b)
  intro r c x y hx hy
  have := ram_mine_stable b r c
  rw [hx, hy] at this
  simpa using this

theorem mkBoard_cell_init (rows cols tm r c : Nat) (x : Cell) :
    getCell (mkBoard rows cols tm).grid r c = some x → x = Cell.init := by
  intro hx
  unfold mkBoard getCell at hx
  simp only [List.get?_eq_getElem?] at hx
  rw [List.getElem?_replicate] at hx
  by_cases h1 : r < rows
  · rw [if_pos h1] at hx
    simp only [Option.some_bind] at hx
    rw [List.getElem?_replicate] at hx
    by_cases h2 : c < cols
    · rw [if_pos h2] at hx
      exact (Option.some.inj hx).symm
    · rw [if_neg h2] at hx; cases hx
  · rw [if_neg h1] at hx; cases hx

theorem getCellD_mine_false_of_stable {g g' : List (List Cell)} {r c : Nat}
    (hst : (getCell g' r c).map Cell.is_mine = (getCell g r c).map Cell.is_mine)
    (h : ∀ y, getCell g r c = some y → y.is_mine = false) :
    (getCellD g' r c).is_mine = false := by
  unfold getCellD
  cases h1 : getCell g' r c <;> cases h2 : getCell g r c <;>
    rw [h1, h2] at hst <;> simp_all [Cell.init]

/-- C2: the first successful `reveal` never loses and leaves the clicked
cell and all its neighbours mine-free: mines are placed at that moment,
drawn outside the exclusion zone, `min(total_mines, available)` of
them, and `first_move` is cleared. -/
theorem claim_C2 : ∀ (b : Board) (row col : Nat) (sample : List (Nat × Nat)), WF b →
    b.game_state = GameState.PLAYING → b.first_move = true →
    row < b.rows → col < b.cols →
    (getCellD b.grid row col).state = CellState.HIDDEN →
    (∀ r c x, getCell b.grid r c = some x → x.is_mine = false) →
    validSample b row col sample →
    (reveal b row col sample).2 = true ∧
    (reveal b row col sample).1.game_state ≠ GameState.LOST ∧
    (∀ p, (p = (row, col) ∨ p ∈ get_neighbors b.rows b.cols row col) →
      (getCellD (reveal b row col sample).1.grid p.1 p.2).is_mine = false) ∧
    mineCount (reveal b row col sample).1 =
      min b.total_mines (available_positions b row col).length ∧
    (reveal b row col sample).1.first_move = false := by
  intro b row col sample hwf hgs hfm hr hc hhid hnomine hvs
  obtain ⟨hnd, hsub, hlen⟩ := hvs
  have hwfbm : WF ({ b with grid := sample.foldl mineBody b.grid } : Board) :=
    WF_of_sameShape hwf (mine_fold_shape sample b.grid) rfl rfl
  have hwfb1 : WF ({ place_mines b sample with first_move := false } : Board) :=
    cam_wf hwfbm
  have hadjb1 : AdjConsistent ({ place_mines b sample with first_move := false } : Board) :=
    cam_adjConsistent hwfbm
  have hnotin : ∀ p, p ∈ exclude_positions b row col → p ∉ sample := by
    intro p hp hmem
    exact (mem_available_positions.1 (hsub _ hmem)).2.2 hp
  have hforbid : (row, col) ∉ sample :=
    hnotin (row, col) (List.mem_cons_self _ _)
  have hbm_else : ∀ r c, (r, c) ∉ sample →
      getCell (sample.foldl mineBody b.grid) r c = getCell b.grid r c := by
    intro r c hn
    rw [mine_fold_getCell sample hnd b.grid r c, if_neg hn]
  have hmine_b1 : ∀ r c, (r, c) ∉ sample →
      (getCell ({ place_mines b sample with first_move := false } : Board).grid r c).map
        Cell.is_mine = (getCell b.grid r c).map Cell.is_mine := by
    intro r c hn
    have h1 := cam_mine_stable { b with grid := sample.foldl mineBody b.grid } r c
    rw [hbm_else r c hn] at h1
    exact h1
  obtain ⟨cell0, hcell0⟩ := hwf.getCell_isSome hr hc
  have hcell0m : cell0.is_mine = false := hnomine _ _ _ hcell0
  have htargetB1 : ∀ cell,
      getCell ({ place_mines b sample with first_move := false } : Board).grid row col =
        some cell → cell.is_mine = false := by
    intro cell hcellB1
    have hst := hmine_b1 row col hforbid
    rw [hcellB1, hcell0] at hst
    simp only [Option.map_some'] at hst
    rw [Option.some.inj hst]
    exact hcell0m
  obtain ⟨hsucc, hgsB, hminesB⟩ := revealCell_safe hwfb1 hadjb1 htargetB1
  have hstep := revealCell_stepR
    ({ place_mines b sample with first_move := false } : Board) row col
  have hck1 : (getCellD b.grid row col).state ≠ CellState.FLAGGED := by rw [hhid]; simp
  have hck2 : (getCellD b.grid row col).state ≠ CellState.REVEALED := by rw [hhid]; simp
  have hrev := reveal_go' hgs ⟨hr, hc⟩ hck1 hck2
    ({ place_mines b sample with first_move := false } : Board) (by rw [if_pos hfm])
  -- mine counts
  have m0 : mineCount b = 0 := countCells_eq_zero_of (fun r c x hx => hnomine r c x hx)
  have mfold : countCells (fun cell => cell.is_mine) (sample.foldl mineBody b.grid) =
      countCells (fun cell => cell.is_mine) b.grid + sample.length := by
    apply mine_fold_count sample b.grid hnd
    intro p hp
    have hbnds := mem_available_positions.1 (hsub _ hp)
    obtain ⟨x, hx⟩ := hwf.getCell_isSome hbnds.1 hbnds.2.1
    exact ⟨x, hx, hnomine _ _ _ hx⟩
  have m2 : mineCount ({ place_mines b sample with first_move := false } : Board) =
      sample.length := by
    show countCells (fun cell => cell.is_mine) (place_mines b sample).grid = sample.length
    have hcc : countCells (fun cell => cell.is_mine) (place_mines b sample).grid =
        countCells (fun cell => cell.is_mine) (sample.foldl mineBody b.grid) := by
      apply countCells_congr
        (calculate_adjacent_mines_shape { b with grid := sample.foldl mineBody b.grid })
      intro r c x y hx hy
      have hst : (getCell (calculate_adjacent_mines
            { b with grid := sample.foldl mineBody b.grid }).grid r c).map Cell.is_mine =
          (getCell (sample.foldl mineBody b.grid) r c).map Cell.is_mine :=
        cam_mine_stable { b with grid := sample.foldl mineBody b.grid } r c
      rw [hx, hy] at hst
      simpa using hst
    rw [hcc, mfold]
    have : countCells (fun cell => cell.is_mine) b.grid = 0 := m0
    omega
  have m3 : mineCount (revealCell
      ({ place_mines b sample with first_move := false } : Board) row col).1 =
      sample.length := by
    rw [hstep.minecnt]
    exact m2
  have hminlen : sample.length = min b.total_mines (available_positions b row col).length :=
    hlen
  -- per-position non-mineness in the revealed board
  have hmine_res : ∀ p, p ∈ exclude_positions b row col →
      (getCell (revealCell ({ place_mines b sample with first_move := false } : Board)
        row col).1.grid p.1 p.2).map Cell.is_mine =
        (getCell b.grid p.1 p.2).map Cell.is_mine := by
    intro p hp
    exact ((hstep.evolves p.1 p.2).mine_eq).trans (hmine_b1 p.1 p.2 (hnotin p hp))
  rw [hrev]
  by_cases hwin : ((revealCell
      ({ place_mines b sample with first_move := false } : Board) row col).2 &&
      are_all_safe_cells_revealed (revealCell
        ({ place_mines b sample with first_move := false } : Board) row col).1) = true
  · rw [if_pos hwin]
    refine ⟨hsucc, fun h => GameState.noConfusion h, ?_, ?_, ?_⟩
    · intro p hp
      have hpexc : p ∈ exclude_positions b row col := by
        rcases hp with hp | hp
        · rw [hp]; exact List.mem_cons_self _ _
        · exact List.mem_cons_of_mem _ hp
      apply getCellD_mine_false_of_stable
        ((ram_mine_stable _ p.1 p.2).trans (hmine_res p hpexc))
      intro y hy
      exact hnomine _ _ _ hy
    · rw [show mineCount (reveal_all_mines { (revealCell
          ({ place_mines b sample with first_move := false } : Board) row col).1 with
          game_state := GameState.WON }) = mineCount (revealCell
          ({ place_mines b sample with first_move := false } : Board) row col).1 from
        ram_minecnt _]
      rw [m3]
      exact hminlen
    · show (revealCell ({ place_mines b sample with first_move := false } : Board)
        row col).1.first_move = false
      rw [hstep.first_eq]
  · rw [if_neg hwin]
    refine ⟨hsucc, ?_, ?_, ?_, ?_⟩
    · rw [hgsB]
      show b.game_state ≠ GameState.LOST
      rw [hgs]
      simp
    · intro p hp
      have hpexc : p ∈ exclude_positions b row col := by
        rcases hp with hp | hp
        · rw [hp]; exact List.mem_cons_self _ _
        · exact List.mem_cons_of_mem _ hp
      apply getCellD_mine_false_of_stable (hmine_res p hpexc)
      intro y hy
      exact hnomine _ _ _ hy
    · rw [m3]
      exact hminlen
    · rw [hstep.first_eq]

/-- C2 witness: the first reveal on a fresh 3-by-3 board with one mine,
clicking (0,0) with the sample position (2,2), is safe. -/
theorem claim_C2_witness :
    (reveal (mkBoard 3 3 1) 0 0 [(2, 2)]).2 = true ∧
    (reveal (mkBoard 3 3 1) 0 0 [(2, 2)]).1.game_state ≠ GameState.LOST ∧
    (∀ p, (p = (0, 0) ∨ p ∈ get_neighbors (mkBoard 3 3 1).rows (mkBoard 3 3 1).cols 0 0) →
      (getCellD (reveal (mkBoard 3 3 1) 0 0 [(2, 2)]).1.grid p.1 p.2).is_mine = false) ∧
    mineCount (reveal (mkBoard 3 3 1) 0 0 [(2, 2)]).1 =
      min (mkBoard 3 3 1).total_mines
        (available_positions (mkBoard 3 3 1) 0 0).length ∧
    (reveal (mkBoard 3 3 1) 0 0 [(2, 2)]).1.first_move = false :=
  claim_C2 (mkBoard 3 3 1) 0 0 [(2, 2)] (by decide) (by decide) (by decide) (by decide)
    (by decide) (by decide)
    (fun r c x hx => by rw [mkBoard_cell_init 3 3 1 r c x hx]; rfl)
    ⟨by decide, by decide, by decide⟩

/-! ### The engine invariant holds in every reachable state -/

theorem AdjConsistent_congr {b b' : Board} (h : AdjConsistent b)
    (hro : b'.rows = b.rows) (hco : b'.cols = b.cols)
    (hmine : ∀ r c, (getCell b'.grid r c).map Cell.is_mine =
      (getCell b.grid r c).map Cell.is_mine)
    (hadjm : ∀ r c, (getCell b'.grid r c).map Cell.adjacent_mines =
      (getCell b.grid r c).map Cell.adjacent_mines) : AdjConsistent b' := by
  intro r c cell' hcell' hm'
  have hm := hmine r c
  have ha := hadjm r c
  cases hcell : getCell b.grid r c with
  | none =>
    rw [hcell', hcell] at hm
    simp at hm
  | some cell =>
    rw [hcell', hcell] at hm ha
    simp only [Option.map_some'] at hm ha
    have hmm : cell'.is_mine = cell.is_mine := Option.some.inj hm
    have haa : cell'.adjacent_mines = cell.adjacent_mines := Option.some.inj ha
    have hbase := h r c cell hcell (hmm.symm.trans hm')
    rw [haa, hbase, hro, hco]
    exact (countMineNeighbors_congr hmine r c).symm

theorem mkBoard_wf (rows cols mines : Nat) : WF (mkBoard rows cols mines) := by
  constructor
  · simp [mkBoard]
  · intro row hrow
    simp only [mkBoard] at hrow
    rw [List.eq_of_mem_replicate hrow]
    simp [mkBoard]

theorem mkBoard_getCellD (rows cols mines r c : Nat) :
    getCellD (mkBoard rows cols mines).grid r c = Cell.init := by
  unfold getCellD
  cases hg : getCell (mkBoard rows cols mines).grid r c with
  | none => rfl
  | some x => rw [mkBoard_cell_init rows cols mines r c x hg]; rfl

theorem mkBoard_inv (rows cols mines : Nat) : Inv (mkBoard rows cols mines) := by
  refine ⟨mkBoard_wf rows cols mines, ?_, ?_, ?_, ?_⟩
  · intro r c cell hc hm
    have hcnt : countMineNeighbors (mkBoard rows cols mines).rows
        (mkBoard rows cols mines).cols (mkBoard rows cols mines).grid r c = 0 := by
      unfold countMineNeighbors
      rw [List.countP_eq_zero]
      intro p _
      rw [mkBoard_getCellD rows cols mines p.1 p.2]
      simp [Cell.init]
    rw [hcnt, mkBoard_cell_init rows cols mines r c cell hc]
    rfl
  · intro _
    have hz1 : flaggedCount (mkBoard rows cols mines) = 0 :=
      countCells_eq_zero_of (fun r c x hx => by
        rw [mkBoard_cell_init rows cols mines r c x hx]; rfl)
    have hz2 : revealedCount (mkBoard rows cols mines) = 0 :=
      countCells_eq_zero_of (fun r c x hx => by
        rw [mkBoard_cell_init rows cols mines r c x hx]; rfl)
    exact ⟨by rw [hz1]; rfl, by rw [hz2]; rfl⟩
  · intro _ r c x hx hm
    rw [mkBoard_cell_init rows cols mines r c x hx] at hm
    exact absurd hm (by decide)
  · intro _ r c x hx
    rw [mkBoard_cell_init rows cols mines r c x hx]
    exact ⟨rfl, by decide⟩

theorem getCell_mem {g : List (List Cell)} {r c : Nat} {x : Cell}
    (h : getCell g r c = some x) : ∃ row, row ∈ g ∧ x ∈ row := by
  rcases getCell_some_iff.1 h with ⟨row, hr, hc⟩
  exact ⟨row, List.getElem?_mem hr, List.getElem?_mem hc⟩

/-- All cells of the raw pattern grid are hidden, mine or not. -/
theorem pattern_base_cells (lines : List (List Char)) (cols : Nat) (r c : Nat) (x : Cell)
    (hx : getCell (lines.map (fun line => (List.range cols).map (fun c =>
      { Cell.init with is_mine := decide (line.getD c ' ' = '*') }))) r c = some x) :
    x.state = CellState.HIDDEN := by
  obtain ⟨row, hrow, hxr⟩ := getCell_mem hx
  obtain ⟨line, _, hline⟩ := List.mem_map.1 hrow
  rw [← hline] at hxr
  obtain ⟨c0, _, hc0⟩ := List.mem_map.1 hxr
  rw [← hc0]
  rfl

/-- `_calculate_adjacent_mines` applied to a freshly laid-out board
(all cells hidden, zero counters, not the first move) gives an
invariant-satisfying board. -/
theorem inv_cam_hidden {b0 : Board} (hwf : WF b0) (hfm : b0.first_move = false)
    (hflags : b0.flags_placed = 0) (hrev : b0.cells_revealed = 0)
    (hcells : ∀ r c x, getCell b0.grid r c = some x → x.state = CellState.HIDDEN) :
    Inv (calculate_adjacent_mines b0) := by
  have hstate : ∀ r c x, getCell (calculate_adjacent_mines b0).grid r c = some x →
      x.state = CellState.HIDDEN := by
    intro r c x hx
    have hst := cam_state_stable b0 r c
    rw [hx] at hst
    cases h0 : getCell b0.grid r c with
    | none => rw [h0] at hst; simp at hst
    | some z =>
      rw [h0] at hst
      simp only [Option.map_some'] at hst
      rw [Option.some.inj hst]
      exact hcells r c z h0
  refine ⟨cam_wf hwf, cam_adjConsistent hwf, ?_, ?_, ?_⟩
  · intro _
    have hz1 : flaggedCount (calculate_adjacent_mines b0) = 0 :=
      countCells_eq_zero_of (fun r c x hx => by rw [hstate r c x hx]; rfl)
    have hz2 : revealedCount (calculate_adjacent_mines b0) = 0 :=
      countCells_eq_zero_of (fun r c x hx => by rw [hstate r c x hx]; rfl)
    constructor
    · show b0.flags_placed = _
      rw [hz1, hflags]
      rfl
    · show b0.cells_revealed = _
      rw [hz2, hrev]
  · intro _ r c x hx _
    rw [hstate r c x hx]
    simp
  · intro h
    have h2 : b0.first_move = true := h
    rw [hfm] at h2
    cases h2

/-- `setup_board_from_pattern` with lets inlined. -/
theorem setup_board_eq (b : Board) (pat : String) :
    setup_board_from_pattern b pat =
      (if (((splitNewlines (stripChars pat.toList)).map stripChars).filter
          (fun l => !l.isEmpty)).isEmpty then b
       else calculate_adjacent_mines
        { rows := (((splitNewlines (stripChars pat.toList)).map stripChars).filter
            (fun l => !l.isEmpty)).length
          cols := ((((splitNewlines (stripChars pat.toList)).map stripChars).filter
            (fun l => !l.isEmpty)).map List.length).foldl Nat.max 0
          total_mines := ((((splitNewlines (stripChars pat.toList)).map stripChars).filter
            (fun l => !l.isEmpty)).map
              (fun line => line.countP (fun ch => ch == '*'))).sum
          game_state := .PLAYING
          first_move := false
          grid := (((splitNewlines (stripChars pat.toList)).map stripChars).filter
            (fun l => !l.isEmpty)).map (fun line =>
              (List.range (((((splitNewlines (stripChars pat.toList)).map stripChars).filter
                (fun l => !l.isEmpty)).map List.length).foldl Nat.max 0)).map (fun c =>
                { Cell.init with is_mine := decide (line.getD c ' ' = '*') }))
          flags_placed := 0
          cells_revealed := 0
          total_safe_cells := ((((splitNewlines (stripChars pat.toList)).map stripChars).filter
              (fun l => !l.isEmpty)).length : Int) *
            (((((splitNewlines (stripChars pat.toList)).map stripChars).filter
              (fun l => !l.isEmpty)).map List.length).foldl Nat.max 0) -
            ((((splitNewlines (stripChars pat.toList)).map stripChars).filter
              (fun l => !l.isEmpty)).map
                (fun line => line.countP (fun ch => ch == '*'))).sum }) := rfl

theorem pattern_inv (b : Board) (pat : String) (hinv : Inv b) :
    Inv (setup_board_from_pattern b pat) := by
  rw [setup_board_eq]
  by_cases hL : (((splitNewlines (stripChars pat.toList)).map stripChars).filter
      (fun l => !l.isEmpty)).isEmpty
  · rw [if_pos hL]
    exact hinv
  · rw [if_neg hL]
    apply inv_cam_hidden
    · constructor
      · simp
      · intro row hrow
        simp only [List.mem_map] at hrow
        obtain ⟨line, _, hfl⟩ := hrow
        rw [← hfl]
        simp
    · rfl
    · rfl
    · rfl
    · intro r c x hx
      exact pattern_base_cells _ _ r c x hx

/-- Writing one non-revealed cell's state (to a non-revealed state) and
adjusting `flags_placed` by the matching delta preserves the invariant:
the common core of `flag`'s two toggle branches. -/
theorem inv_flag_write {b : Board} {row col : Nat} {cell : Cell} {s' : CellState} {d : Int}
    (hwf : WF b) (hadj : AdjConsistent b)
    (hcnt : b.game_state ≠ GameState.WON → CountersMatch b)
    (hnrm : b.game_state = GameState.PLAYING → NoRevealedMines b)
    (hfresh : FreshMove b)
    (hgs : b.game_state = GameState.PLAYING)
    (hcell : getCell b.grid row col = some cell)
    (hcr : cell.state ≠ CellState.REVEALED)
    (hs' : s' ≠ CellState.REVEALED)
    (hd : (if cell.state = CellState.FLAGGED then (1:Int) else 0) + d =
          (if s' = CellState.FLAGGED then (1:Int) else 0)) :
    Inv { b with grid := setCellG b.grid row col { cell with state := s' },
                 flags_placed := b.flags_placed + d } := by
  have hmine : ∀ r' c',
      (getCell (setCellG b.grid row col { cell with state := s' }) r' c').map Cell.is_mine =
        (getCell b.grid r' c').map Cell.is_mine := by
    intro r' c'
    by_cases h : r' = row ∧ c' = col
    · obtain ⟨rfl, rfl⟩ := h
      rw [getCell_setCellG_self _ hcell, hcell]
      rfl
    · rw [getCell_setCellG_ne _ h]
  have hadjm : ∀ r' c',
      (getCell (setCellG b.grid row col { cell with state := s' }) r' c').map
          Cell.adjacent_mines = (getCell b.grid r' c').map Cell.adjacent_mines := by
    intro r' c'
    by_cases h : r' = row ∧ c' = col
    · obtain ⟨rfl, rfl⟩ := h
      rw [getCell_setCellG_self _ hcell, hcell]
      rfl
    · rw [getCell_setCellG_ne _ h]
  have hbw : b.game_state ≠ GameState.WON := by
    rw [hgs]
    exact fun h => GameState.noConfusion h
  refine ⟨?_, ?_, ?_, ?_, ?_⟩
  · exact WF_of_sameShape hwf (sameShape_setCellG b.grid row col _) rfl rfl
  · exact AdjConsistent_congr hadj rfl rfl hmine hadjm
  · intro _
    obtain ⟨hcf, hcv⟩ := hcnt hbw
    constructor
    · show b.flags_placed + d = _
      have h5 := countCells_setCellG (fun c0 => decide (c0.state = CellState.FLAGGED))
        ({ cell with state := s' }) hcell
      simp only [decide_eq_true_eq] at h5
      have h6 : flaggedCount { b with
          grid := setCellG b.grid row col { cell with state := s' },
          flags_placed := b.flags_placed + d } +
          (if cell.state = CellState.FLAGGED then 1 else 0) =
          flaggedCount b + (if s' = CellState.FLAGGED then 1 else 0) := h5
      by_cases hc1 : cell.state = CellState.FLAGGED
      · rw [if_pos hc1] at h6
        rw [if_pos hc1] at hd
        by_cases hc2 : s' = CellState.FLAGGED
        · rw [if_pos hc2] at h6
          rw [if_pos hc2] at hd
          omega
        · rw [if_neg hc2] at h6
          rw [if_neg hc2] at hd
          omega
      · rw [if_neg hc1] at h6
        rw [if_neg hc1] at hd
        by_cases hc2 : s' = CellState.FLAGGED
        · rw [if_pos hc2] at h6
          rw [if_pos hc2] at hd
          omega
        · rw [if_neg hc2] at h6
          rw [if_neg hc2] at hd
          omega
    · show b.cells_revealed = _
      have h5 := countCells_setCellG (fun c0 => decide (c0.state = CellState.REVEALED))
        ({ cell with state := s' }) hcell
      simp only [decide_eq_true_eq] at h5
      rw [if_neg hcr, if_neg hs'] at h5
      have h6 : revealedCount { b with
          grid := setCellG b.grid row col { cell with state := s' },
          flags_placed := b.flags_placed + d } =
          countCells (fun c0 => decide (c0.state = CellState.REVEALED))
            (setCellG b.grid row col { cell with state := s' }) := rfl
      have h7 : revealedCount b =
          countCells (fun c0 => decide (c0.state = CellState.REVEALED)) b.grid := rfl
      omega
  · intro _ r' c' x hx hm
    by_cases h : r' = row ∧ c' = col
    · obtain ⟨rfl, rfl⟩ := h
      have hx' : getCell (setCellG b.grid r' c' { cell with state := s' }) r' c' =
          some { cell with state := s' } := getCell_setCellG_self _ hcell
      have hxx : x = { cell with state := s' } := by
        have := hx'.symm.trans hx
        exact (Option.some.inj this).symm
      rw [hxx]
      exact hs'
    · have hx' : getCell b.grid r' c' = some x := by
        rw [← getCell_setCellG_ne ({ cell with state := s' }) h]
        exact hx
      exact hnrm hgs r' c' x hx' hm
  · intro hfm r' c' x hx
    have hfm' : b.first_move = true := hfm
    by_cases h : r' = row ∧ c' = col
    · obtain ⟨rfl, rfl⟩ := h
      have hx' : getCell (setCellG b.grid r' c' { cell with state := s' }) r' c' =
          some { cell with state := s' } := getCell_setCellG_self _ hcell
      have hxx : x = { cell with state := s' } := by
        have := hx'.symm.trans hx
        exact (Option.some.inj this).symm
      rw [hxx]
      exact ⟨(hfresh hfm' r' c' cell hcell).1, hs'⟩
    · have hx' : getCell b.grid r' c' = some x := by
        rw [← getCell_setCellG_ne ({ cell with state := s' }) h]
        exact hx
      exact hfresh hfm' r' c' x hx'

theorem flag_inv (b : Board) (row col : Nat) (hinv : Inv b) : Inv (flag b row col).1 := by
  obtain ⟨hwf, hadj, hcnt, hnrm, hfresh⟩ := hinv
  by_cases hgs : b.game_state = GameState.PLAYING
  case neg =>
    rw [flag_not_playing hgs]
    exact ⟨hwf, hadj, hcnt, hnrm, hfresh⟩
  by_cases hb : row < b.rows ∧ col < b.cols
  case neg =>
    rw [flag_oob hgs hb]
    exact ⟨hwf, hadj, hcnt, hnrm, hfresh⟩
  by_cases hr : (getCellD b.grid row col).state = CellState.REVEALED
  · rw [flag_revealed hgs hb hr]
    exact ⟨hwf, hadj, hcnt, hnrm, hfresh⟩
  obtain ⟨cell, hcell⟩ := hwf.getCell_isSome hb.1 hb.2
  have hcd : getCellD b.grid row col = cell := getCellD_eq hcell
  rw [hcd] at hr
  by_cases hf : cell.state = CellState.FLAGGED
  · rw [flag_unflag hgs hb (by rw [hcd]; exact hf), hcd]
    exact inv_flag_write hwf hadj hcnt hnrm hfresh hgs hcell hr (by decide)
      (by rw [if_pos hf]; decide)
  · rw [flag_set hgs hb (by rw [hcd]; exact hr) (by rw [hcd]; exact hf), hcd]
    exact inv_flag_write hwf hadj hcnt hnrm hfresh hgs hcell hr (by decide)
      (by rw [if_neg hf]; decide)

theorem reset_inv (b : Board) (hinv : Inv b) : Inv (reset b) := by
  obtain ⟨hwf, _, _, _, _⟩ := hinv
  have hwf' : WF (reset b) := WF_of_sameShape hwf (reset_shape b) rfl rfl
  have hcell' : ∀ r c x, getCell (reset b).grid r c = some x → x = Cell.init := by
    intro r c x hx
    have hbnd := hwf'.getCell_bounds hx
    have hbnd' : r < b.rows ∧ c < b.cols := hbnd
    have hchar := reset_getCell b r c
    rw [if_pos hbnd'] at hchar
    rw [hchar] at hx
    cases h0 : getCell b.grid r c with
    | none => rw [h0] at hx; cases hx
    | some z =>
      rw [h0] at hx
      exact (Option.some.inj hx).symm
  have hD : ∀ r c, (getCellD (reset b).grid r c).is_mine = false := by
    intro r c
    unfold getCellD
    cases h0 : getCell (reset b).grid r c with
    | none => rfl
    | some x => rw [hcell' r c x h0]; rfl
  refine ⟨hwf', ?_, ?_, ?_, ?_⟩
  · intro r c cell hc hm
    have hcnt0 : countMineNeighbors (reset b).rows (reset b).cols (reset b).grid r c = 0 := by
      unfold countMineNeighbors
      rw [List.countP_eq_zero]
      intro p _
      simp [hD p.1 p.2]
    rw [hcnt0, hcell' r c cell hc]
    rfl
  · intro _
    have hz1 : flaggedCount (reset b) = 0 :=
      countCells_eq_zero_of (fun r c x hx => by rw [hcell' r c x hx]; rfl)
    have hz2 : revealedCount (reset b) = 0 :=
      countCells_eq_zero_of (fun r c x hx => by rw [hcell' r c x hx]; rfl)
    exact ⟨by rw [hz1]; rfl, by rw [hz2]; rfl⟩
  · intro _ r c x hx hm
    rw [hcell' r c x hx] at hm
    exact absurd hm (by decide)
  · intro _ r c x hx
    rw [hcell' r c x hx]
    exact ⟨rfl, by decide⟩

/-- A flood-reveal step (single cell or chord loop) carries the whole
invariant forward, provided it starts from an invariant state past the
first move. -/
theorem StepR.preserve_inv {b b' : Board} (hs : StepR b b') (hwf : WF b)
    (hadj : AdjConsistent b) (hcm : CountersMatch b) (hnrm : NoRevealedMines b)
    (hfm : b.first_move = false) : Inv b' := by
  refine ⟨hs.wf hwf, hadj.of_stepR hs, ?_, ?_, ?_⟩
  · intro _
    obtain ⟨h1, h2⟩ := hcm
    constructor
    · rw [hs.flags_eq, hs.flagcnt]
      exact h1
    · have := hs.counters
      omega
  · intro hpl r c x hx hm hrev
    have hev := hs.evolves r c
    cases h0 : getCell b.grid r c with
    | none =>
      rw [h0, hx] at hev
      exact absurd hev (by simp [OptEvolves])
    | some z =>
      rw [h0, hx] at hev
      obtain ⟨hm2, _, hst⟩ := hev
      rcases hst with hst | ⟨hzh, hxr⟩
      · exact hnrm r c z h0 (by rw [← hm2]; exact hm) (by rw [← hst]; exact hrev)
      · have hlost := hs.mine_lost r c z x h0 hx hm
          (by rw [hzh]; exact fun h => CellState.noConfusion h) hxr
        rw [hpl] at hlost
        exact GameState.noConfusion hlost
  · intro h
    have h2 : b'.first_move = true := h
    rw [hs.first_eq, hfm] at h2
    cases h2

/-- The WON-finalisation step (`game_state = WON` then
`reveal_all_mines`) keeps the invariant: its counter clause is vacuous
on WON, which is exactly why the counters may drift there. -/
theorem inv_ram_won {b2 : Board} (hwf : WF b2) (hadj : AdjConsistent b2)
    (hfm : b2.first_move = false) :
    Inv (reveal_all_mines { b2 with game_state := GameState.WON }) := by
  have hwfX : WF ({ b2 with game_state := GameState.WON } : Board) := hwf
  have hadjX : AdjConsistent ({ b2 with game_state := GameState.WON } : Board) := hadj
  have hadjst : ∀ r c,
      (getCell (reveal_all_mines { b2 with game_state := GameState.WON }).grid r c).map
          Cell.adjacent_mines =
        (getCell ({ b2 with game_state := GameState.WON } : Board).grid r c).map
          Cell.adjacent_mines := by
    intro r c
    rw [reveal_all_mines_getCell]
    split
    · cases getCell ({ b2 with game_state := GameState.WON } : Board).grid r c with
      | none => rfl
      | some cell => by_cases hm : cell.is_mine <;> simp [hm]
    · rfl
  refine ⟨?_, ?_, ?_, ?_, ?_⟩
  · exact WF_of_sameShape hwfX
      (reveal_all_mines_shape { b2 with game_state := GameState.WON }) rfl rfl
  · exact AdjConsistent_congr hadjX rfl rfl
      (fun r c => ram_mine_stable { b2 with game_state := GameState.WON } r c) hadjst
  · intro h
    exact absurd rfl h
  · intro h
    exact GameState.noConfusion h
  · intro h
    have h2 : b2.first_move = true := h
    rw [hfm] at h2
    cases h2

theorem reveal_inv (b : Board) (row col : Nat) (sample : List (Nat × Nat)) (hinv : Inv b)
    (hvsf : b.first_move = true → validSample b row col sample) :
    Inv (reveal b row col sample).1 := by
  obtain ⟨hwf, hadj, hcnt, hnrm, hfresh⟩ := hinv
  by_cases hgs : b.game_state = GameState.PLAYING
  case neg =>
    rw [reveal_not_playing hgs]
    exact ⟨hwf, hadj, hcnt, hnrm, hfresh⟩
  by_cases hb : row < b.rows ∧ col < b.cols
  case neg =>
    rw [reveal_oob hgs hb]
    exact ⟨hwf, hadj, hcnt, hnrm, hfresh⟩
  by_cases hf : (getCellD b.grid row col).state = CellState.FLAGGED
  · rw [reveal_flagged hgs hb hf]
    exact ⟨hwf, hadj, hcnt, hnrm, hfresh⟩
  by_cases hr : (getCellD b.grid row col).state = CellState.REVEALED
  · rw [reveal_revealed hgs hb hr]
    exact ⟨hwf, hadj, hcnt, hnrm, hfresh⟩
  have hneW : b.game_state ≠ GameState.WON := by
    rw [hgs]
    exact fun h => GameState.noConfusion h
  have key : ∀ b1 : Board, WF b1 → AdjConsistent b1 → CountersMatch b1 →
      NoRevealedMines b1 → b1.first_move = false →
      Inv (if (revealCell b1 row col).2 &&
            are_all_safe_cells_revealed (revealCell b1 row col).1
          then (reveal_all_mines { (revealCell b1 row col).1 with game_state := .WON },
            (revealCell b1 row col).2)
          else revealCell b1 row col).1 := by
    intro b1 hwf1 hadj1 hcm1 hnrm1 hfm1
    have hstep := revealCell_stepR b1 row col
    have hinv2 : Inv (revealCell b1 row col).1 :=
      hstep.preserve_inv hwf1 hadj1 hcm1 hnrm1 hfm1
    by_cases hwin : ((revealCell b1 row col).2 &&
        are_all_safe_cells_revealed (revealCell b1 row col).1) = true
    · rw [if_pos hwin]
      exact inv_ram_won hinv2.1 hinv2.2.1 (by rw [hstep.first_eq]; exact hfm1)
    · rw [if_neg hwin]
      exact hinv2
  rw [reveal_go' hgs hb hf hr
    (if b.first_move = true then { place_mines b sample with first_move := false } else b) rfl]
  by_cases hfm : b.first_move = true
  · rw [if_pos hfm]
    obtain ⟨hnd, hsub, hlen⟩ := hvsf hfm
    have hstst : ∀ r c,
        (getCell ({ place_mines b sample with first_move := false } : Board).grid r c).map
          Cell.state = (getCell b.grid r c).map Cell.state := by
      intro r c
      have h1 : (getCell ({ place_mines b sample with first_move := false } : Board).grid
            r c).map Cell.state =
          (getCell (sample.foldl mineBody b.grid) r c).map Cell.state :=
        cam_state_stable { b with grid := sample.foldl mineBody b.grid } r c
      rw [h1, mine_fold_getCell sample hnd b.grid r c]
      split
      · cases getCell b.grid r c <;> simp
      · rfl
    have hshape : sameShape b.grid
        ({ place_mines b sample with first_move := false } : Board).grid :=
      sameShape_trans (mine_fold_shape sample b.grid)
        (calculate_adjacent_mines_shape { b with grid := sample.foldl mineBody b.grid })
    apply key
    · exact cam_wf (WF_of_sameShape hwf (mine_fold_shape sample b.grid) rfl rfl)
    · exact cam_adjConsistent (WF_of_sameShape hwf (mine_fold_shape sample b.grid) rfl rfl)
    · constructor
      · show b.flags_placed = _
        have hfc : flaggedCount ({ place_mines b sample with first_move := false } : Board) =
            flaggedCount b := by
          apply countCells_congr hshape
          intro r c x y hx hy
          have hst := hstst r c
          rw [hx, hy] at hst
          simp only [Option.map_some'] at hst
          rw [Option.some.inj hst]
        rw [hfc]
        exact (hcnt hneW).1
      · show b.cells_revealed = _
        have hrc : revealedCount ({ place_mines b sample with first_move := false } : Board) =
            revealedCount b := by
          apply countCells_congr hshape
          intro r c x y hx hy
          have hst := hstst r c
          rw [hx, hy] at hst
          simp only [Option.map_some'] at hst
          rw [Option.some.inj hst]
        rw [hrc]
        exact (hcnt hneW).2
    · intro r c x hx _
      have hst := hstst r c
      rw [hx] at hst
      cases h0 : getCell b.grid r c with
      | none => rw [h0] at hst; simp at hst
      | some z =>
        rw [h0] at hst
        simp only [Option.map_some'] at hst
        rw [Option.some.inj hst]
        exact (hfresh hfm r c z h0).2
    · rfl
  · rw [if_neg hfm]
    apply key
    · exact hwf
    · exact hadj
    · exact hcnt hneW
    · exact hnrm hgs
    · simpa using hfm

theorem chord_inv (b : Board) (row col : Nat) (hinv : Inv b) :
    Inv (chord_reveal b row col).1 := by
  obtain ⟨hwf, hadj, hcnt, hnrm, hfresh⟩ := hinv
  by_cases hgs : b.game_state = GameState.PLAYING
  case neg =>
    rw [chord_not_playing hgs]
    exact ⟨hwf, hadj, hcnt, hnrm, hfresh⟩
  by_cases hb : row < b.rows ∧ col < b.cols
  case neg =>
    rw [chord_oob hgs hb]
    exact ⟨hwf, hadj, hcnt, hnrm, hfresh⟩
  by_cases hr : (getCellD b.grid row col).state = CellState.REVEALED
  case neg =>
    rw [chord_not_revealed hgs hb hr]
    exact ⟨hwf, hadj, hcnt, hnrm, hfresh⟩
  by_cases hm : (getCellD b.grid row col).is_mine = true
  · rw [chord_mine hgs hb hr hm]
    exact ⟨hwf, hadj, hcnt, hnrm, hfresh⟩
  have hm' : (getCellD b.grid row col).is_mine = false := by simpa using hm
  by_cases hfc : (get_neighbors b.rows b.cols row col).countP
      (fun p => decide ((getCellD b.grid p.1 p.2).state = CellState.FLAGGED)) =
      (getCellD b.grid row col).adjacent_mines
  case neg =>
    rw [chord_badflags hgs hb hr hm' hfc]
    exact ⟨hwf, hadj, hcnt, hnrm, hfresh⟩
  rw [chord_go' hgs hb hr hm' hfc]
  have hfm : b.first_move = false := by
    by_cases h1 : b.first_move = true
    · obtain ⟨cell, hcell⟩ := hwf.getCell_isSome hb.1 hb.2
      have hnr := (hfresh h1 row col cell hcell).2
      rw [getCellD_eq hcell] at hr
      exact absurd hr hnr
    · simpa using h1
  have hneW : b.game_state ≠ GameState.WON := by
    rw [hgs]
    exact fun h => GameState.noConfusion h
  have hstep := chordLoop_stepR (get_neighbors b.rows b.cols row col) b
  have hinv2 : Inv (chordLoop b (get_neighbors b.rows b.cols row col)).1 :=
    hstep.preserve_inv hwf hadj (hcnt hneW) (hnrm hgs) hfm
  by_cases hwin : ((chordLoop b (get_neighbors b.rows b.cols row col)).2 &&
      are_all_safe_cells_revealed (chordLoop b (get_neighbors b.rows b.cols row col)).1) = true
  · rw [if_pos hwin]
    exact inv_ram_won hinv2.1 hinv2.2.1 (by rw [hstep.first_eq]; exact hfm)
  · rw [if_neg hwin]
    exact hinv2

/-- Every reachable board satisfies the engine invariant. -/
theorem inv_reachable : ∀ b : Board, Reachable b → Inv b := by
  intro b h
  induction h with
  | construct rows cols mines => exact mkBoard_inv rows cols mines
  | pattern b pat _ ih => exact pattern_inv b pat ih
  | reveal_op b row col sample _ hvs ih => exact reveal_inv b row col sample ih hvs
  | flag_op b row col _ ih => exact flag_inv b row col ih
  | chord_op b row col _ ih => exact chord_inv b row col ih
  | reset_op b _ ih => exact reset_inv b ih

/-- C3 (corrected): at every reachable state whose `game_state` is not
WON, `flags_placed` equals the number of FLAGGED cells and
`cells_revealed` equals the number of REVEALED cells.  On WON states the
original claim fails: `reveal_all_mines` flips every mine (flagged ones
included) to REVEALED without touching either counter — see the
counterexample theorem. -/
theorem claim_C3 : ∀ b : Board, Reachable b → b.game_state ≠ GameState.WON →
    b.flags_placed = (flaggedCount b : Int) ∧ b.cells_revealed = revealedCount b := by
  intro b hreach hW
  exact (inv_reachable b hreach).2.2.1 hW

/-- C3 witness: the claim at the freshly loaded pattern board. -/
theorem claim_C3_witness :
    Reachable patternBoard ∧ patternBoard.game_state ≠ GameState.WON ∧
    (patternBoard.flags_placed = (flaggedCount patternBoard : Int) ∧
      patternBoard.cells_revealed = revealedCount patternBoard) :=
  ⟨Reachable.pattern (mkBoard 9 9 10) "*.\n.." (Reachable.construct 9 9 10),
   by decide,
   claim_C3 patternBoard
     (Reachable.pattern (mkBoard 9 9 10) "*.\n.." (Reachable.construct 9 9 10))
     (by decide)⟩

/-- C3 counterexample to the original claim: a reachable WON board
(the 2-by-2 pattern, mine flagged, three safe cells revealed) on which
both counters disagree with the board scan — `cells_revealed` is 3 but
4 cells are REVEALED, and `flags_placed` is 1 but no cell is FLAGGED. -/
theorem claim_C3_counterexample :
    Reachable wonBoard ∧ wonBoard.game_state = GameState.WON ∧
    wonBoard.cells_revealed = 3 ∧ revealedCount wonBoard = 4 ∧
    wonBoard.flags_placed = 1 ∧ flaggedCount wonBoard = 0 := by
  refine ⟨?_, by decide, by decide, by decide, by decide, by decide⟩
  have h0 : Reachable patternBoard :=
    Reachable.pattern (mkBoard 9 9 10) "*.\n.." (Reachable.construct 9 9 10)
  have h1 : Reachable (flag patternBoard 0 0).1 := Reachable.flag_op _ 0 0 h0
  have h2 : Reachable (reveal (flag patternBoard 0 0).1 0 1 []).1 :=
    Reachable.reveal_op _ 0 1 [] h1 (fun h => absurd h (by decide))
  have h3 : Reachable (reveal (reveal (flag patternBoard 0 0).1 0 1 []).1 1 0 []).1 :=
    Reachable.reveal_op _ 1 0 [] h2 (fun h => absurd h (by decide))
  exact Reachable.reveal_op _ 1 1 [] h3 (fun h => absurd h (by decide))

end Minesweeper
